import Mathlib

/-!
Shallow embedding of `perphix/data/base.py` (class `PerphixBase`), centred on
the `fix_sequences` class method and the sequence-category registry it
consults.  Python lists become `List _`, the relevant `dict` rows become
structures, and fallible Python operations (`list[i]` indexing, `dict[key]`
lookup, subscripting `None`) are modelled in `Except PyError _`.
-/

namespace Perphix

/-- A row of `annotation["images"]`: the two fields `fix_sequences` reads
(`image["id"]` and `image["file_name"]`). -/
structure Image where
  id : Int
  file_name : String
deriving DecidableEq, Repr

/-- A row of the computed `sequences` list: the dict literal built inside
`fix_sequences` with keys `id`, `first_frame_id`, `seq_length`,
`seq_category_id`. -/
structure Seq where
  id : Nat
  first_frame_id : Int
  seq_length : Nat
  seq_category_id : Nat
deriving DecidableEq, Repr

/-- The Python exceptions the embedded code can raise: `KeyError` from the
`_seq_category_names[(supercategory, name)]` dict lookup, `IndexError` from
list subscripts, `TypeError` from subscripting `None`
(`prev_seq_category_names[i]` when the image list was empty). -/
inductive PyError where
  | keyError : String → String → PyError
  | indexError : PyError
  | typeError : PyError
deriving DecidableEq, Repr

/-- A row of `PerphixBase.seq_categories`. -/
structure SeqCategory where
  supercategory : String
  id : Nat
  name : String
deriving DecidableEq, Repr

/-- `PerphixBase.seq_categories`, transcribed verbatim from base.py. -/
def seq_categories : List SeqCategory := [
  ⟨"task", 0, "s1_left"⟩,
  ⟨"task", 1, "s1_right"⟩,
  ⟨"task", 2, "s1"⟩,
  ⟨"task", 3, "s2"⟩,
  ⟨"task", 4, "ramus_left"⟩,
  ⟨"task", 5, "ramus_right"⟩,
  ⟨"task", 6, "teardrop_left"⟩,
  ⟨"task", 7, "teardrop_right"⟩,
  ⟨"activity", 8, "position_wire"⟩,
  ⟨"activity", 9, "insert_wire"⟩,
  ⟨"activity", 10, "insert_screw"⟩,
  ⟨"acquisition", 11, "ap"⟩,
  ⟨"acquisition", 12, "lateral"⟩,
  ⟨"acquisition", 13, "inlet"⟩,
  ⟨"acquisition", 14, "outlet"⟩,
  ⟨"acquisition", 15, "oblique_left"⟩,
  ⟨"acquisition", 16, "oblique_right"⟩,
  ⟨"acquisition", 17, "teardrop_left"⟩,
  ⟨"acquisition", 18, "teardrop_right"⟩,
  ⟨"frame", 19, "fluoro_hunting"⟩,
  ⟨"frame", 20, "assessment"⟩]

/-- `PerphixBase.get_sequence_catid`: the `_seq_category_names` dict is built
from `seq_categories` keyed on `(supercategory, name)`; all 21 keys are
distinct, so the Python dict lookup agrees with a first-match scan of the
list.  A missing key raises `KeyError`, modelled as `none`. -/
def get_sequence_catid (supercategory name : String) : Option Nat :=
  (seq_categories.find? fun c =>
    c.supercategory == supercategory && c.name == name).map (fun c => c.id)

/-- The supercategory that a sequence category id belongs to, read off the
registry (ids are distinct, so first match is the unique match).  Used only in
the statements, to say which axis an emitted sequence record belongs to. -/
def catSup (catid : Nat) : Option String :=
  (seq_categories.find? fun c => c.id == catid).map (fun c => c.supercategory)

/-- Python `str.split(sep)` for a single-character separator, on the
character list: `"".split(sep) == [""]`, separators at the ends produce empty
fields.  Matches CPython semantics for a non-empty separator. -/
def splitOnChar (sep : Char) : List Char → List (List Char)
  | [] => [[]]
  | c :: cs =>
    if c = sep then [] :: splitOnChar sep cs
    else
      match splitOnChar sep cs with
      | [] => [[c]]
      | t :: ts => (c :: t) :: ts

/-- Python `s.split(sep)` for a one-character `sep`, as `String`s. -/
def pySplit (sep : Char) (s : String) : List String :=
  (splitOnChar sep s.data).map (fun l => String.mk l)

/-- Python `l[-n:]`: the last `n` elements (the whole list when it is
shorter). -/
def lastN (n : Nat) (l : List α) : List α := l.drop (l.length - n)

/-- The full dash-split of the part of `file_name` before its first `.`:
Python `image["file_name"].split(".")[0].split("-")`.  (`split` always
returns a non-empty list, so the `[0]` subscript cannot fail.) -/
def rawTokens (file_name : String) : List String :=
  pySplit '-' ((pySplit '.' file_name).headD "")

/-- The label tokens `fix_sequences` extracts per image:
`image["file_name"].split(".")[0].split("-")[-4:]`. -/
def parseTokens (file_name : String) : List String :=
  lastN 4 (rawTokens file_name)

/-- Python `s.replace("screw_", "")` on the character list: remove every
non-overlapping occurrence of `screw_`, scanning left to right.  The literal
char patterns keep the recursion structural. -/
def removeScrewAux : List Char → List Char
  | [] => []
  | 's' :: 'c' :: 'r' :: 'e' :: 'w' :: '_' :: cs => removeScrewAux cs
  | c :: cs => c :: removeScrewAux cs

/-- `seq_category_name = prev_seq_category_names[i].replace("screw_", "")`. -/
def normalizeLabel (s : String) : String := String.mk (removeScrewAux s.data)

/-- The mutable loop state of `fix_sequences`, with the Python variable
names.  `first_frame_ids` and `seq_lengths` are the two 4-element lists,
`prev_seq_category_names` the (possibly shorter) token list of the previous
image, `sequences` the output accumulator. -/
structure LoopState where
  sequences : List Seq
  prev_seq_category_names : List String
  first_frame_ids : List Int
  seq_lengths : List Nat
deriving DecidableEq, Repr

/-- The body of `if seq_category_names[i] != prev_seq_category_names[i]:`.
Evaluation order follows the Python dict literal: `first_frame_ids[i]` and
`seq_lengths[i]` are read before the `get_sequence_catid` lookup, then the
record is appended and the axis's run is reset (`first_frame_ids[i] =
image_id; seq_lengths[i] = 0`). -/
def closeRun (image_id : Int) (st : LoopState) (i : Nat) (supercategory : String)
    (p : String) : Except PyError LoopState :=
  match st.first_frame_ids.get? i, st.seq_lengths.get? i with
  | some f, some l =>
    match get_sequence_catid supercategory (normalizeLabel p) with
    | some catid =>
      .ok { st with
        sequences := st.sequences ++ [⟨st.sequences.length, f, l, catid⟩],
        first_frame_ids := st.first_frame_ids.set i image_id,
        seq_lengths := st.seq_lengths.set i 0 }
    | none => .error (.keyError supercategory (normalizeLabel p))
  | _, _ => .error .indexError

/-- The unconditional tail of the axis loop body: `seq_lengths[i] += 1;
prev_seq_category_names[i] = seq_category_names[i]` (where `c` is the value
`seq_category_names[i]` already read for the comparison). -/
def bumpRun (c : String) (i : Nat) (st : LoopState) : Except PyError LoopState :=
  match st.seq_lengths.get? i with
  | some l => .ok { st with
      seq_lengths := st.seq_lengths.set i (l + 1),
      prev_seq_category_names := st.prev_seq_category_names.set i c }
  | none => .error .indexError

/-- One iteration of `for i, supercategory in enumerate([...])` inside the
image loop, for a non-first image: compare `seq_category_names[i]` with
`prev_seq_category_names[i]` (each subscript can raise `IndexError`), close
the axis's run if they differ, then bump. -/
def stepAxis (image_id : Int) (seq_category_names : List String)
    (st : LoopState) (isup : Nat × String) : Except PyError LoopState :=
  match seq_category_names.get? isup.1, st.prev_seq_category_names.get? isup.1 with
  | some c, some p =>
    if c = p then bumpRun c isup.1 st
    else
      match closeRun image_id st isup.1 isup.2 p with
      | .ok st₁ => bumpRun c isup.1 st₁
      | .error e => .error e
  | _, _ => .error .indexError

/-- `enumerate(["task", "activity", "acquisition", "frame"])`. -/
def supercategories : List String := ["task", "activity", "acquisition", "frame"]

/-- The `(i, supercategory)` pairs of the axis loop. -/
def enumSupercats : List (Nat × String) := supercategories.enum

/-- The body of the image loop for a non-first image (the `prev is None`
branch was not taken): run the four axis iterations in order. -/
def stepImage (st : LoopState) (image : Image) : Except PyError LoopState :=
  enumSupercats.foldlM (stepAxis image.id (parseTokens image.file_name)) st

/-- One iteration of the trailing `# Add the last sequence.` loop:
`prev_seq_category_names[i]` is read (and normalized) first, then
`first_frame_ids[i]` and `seq_lengths[i]`, then the registry lookup; the
record is appended without resetting the run state. -/
def flushAxis (st : LoopState) (isup : Nat × String) : Except PyError LoopState :=
  match st.prev_seq_category_names.get? isup.1 with
  | some p =>
    match st.first_frame_ids.get? isup.1, st.seq_lengths.get? isup.1 with
    | some f, some l =>
      match get_sequence_catid isup.2 (normalizeLabel p) with
      | some catid =>
        .ok { st with sequences := st.sequences ++ [⟨st.sequences.length, f, l, catid⟩] }
      | none => .error (.keyError isup.2 (normalizeLabel p))
    | _, _ => .error .indexError
  | none => .error .indexError

/-- The whole `fix_sequences` scan over `annotation["images"]`, producing the
new `sequences` list.  On the first image the code only records
`prev_seq_category_names`, `first_frame_ids = [id]*4`, `seq_lengths =
[1]*4` and continues; every later image runs the four axis steps; after the
loop the four open runs are flushed.  When `images` is empty,
`prev_seq_category_names` is still `None` at the flush and
`prev_seq_category_names[i]` raises `TypeError`. -/
def fix_sequences_images (images : List Image) : Except PyError (List Seq) :=
  match images with
  | [] => .error .typeError
  | image :: rest => do
    let st₀ : LoopState := {
      sequences := [],
      prev_seq_category_names := parseTokens image.file_name,
      first_frame_ids := [image.id, image.id, image.id, image.id],
      seq_lengths := [1, 1, 1, 1] }
    let st₁ ← rest.foldlM stepImage st₀
    let st₂ ← enumSupercats.foldlM flushAxis st₁
    .ok st₂.sequences

/-- The annotation dictionary as `fix_sequences` sees it: the `images` list
it reads, the `sequences` list it overwrites, and all remaining key/value
entries (`info`, `licenses`, `annotations`, `categories`, ...) bundled as
`extra`, which the routine never touches. -/
structure Annotation where
  images : List Image
  sequences : List Seq
  extra : List (String × String)
deriving DecidableEq, Repr

/-- `PerphixBase.fix_sequences`: deep-copies its argument, recomputes
`sequences` from the image file names, stores it under the `sequences` key
and returns the copy.  In this pure embedding the deep copy is implicit: the
input value is never modified. -/
def fix_sequences ( annotation : Annotation) : Except PyError Annotation :=
  match fix_sequences_images annotation.images with
  | .ok seqs => .ok { annotation with sequences := seqs }
  | .error e => .error e

/-! Statement-side definitions: how the claims talk about the output. -/

/-- The part of a sequence record the run-partition property inspects:
`(first_frame_id, seq_length)`. -/
def runKey (r : Seq) : Int × Nat := (r.first_frame_id, r.seq_length)

/-- The sequence records belonging to one axis, in emission order: those
whose `seq_category_id` is registered under that supercategory. -/
def axisRecords (supercategory : String) (seqs : List Seq) : List Seq :=
  seqs.filter fun r => catSup r.seq_category_id == some supercategory

/-- `coversRuns rs images`: the `(first_frame_id, seq_length)` pairs `rs`
partition `images`, in order, into contiguous non-overlapping runs covering
every image exactly once, each run's `first_frame_id` being the id of the
image that opened it. -/
def coversRuns : List (Int × Nat) → List Image → Bool
  | [], images => images.isEmpty
  | (f, n) :: rs, images =>
    (match images.head? with
     | some image => image.id == f
     | none => false)
    && decide (0 < n) && decide (n ≤ images.length) && coversRuns rs (images.drop n)

/-- The token an image carries on axis `i` (position `i` of its parsed
4-token slice). -/
def tokenAt (i : Nat) (image : Image) : Option String :=
  (parseTokens image.file_name).get? i

/-- How many consecutive image pairs change their token on axis `i`. -/
def axisChanges (i : Nat) : List Image → Nat
  | a :: b :: rest =>
    (if tokenAt i a = tokenAt i b then 0 else 1) + axisChanges i (b :: rest)
  | _ => 0

/-- How many consecutive image pairs change on at least one axis. -/
def anyChange : List Image → Nat
  | a :: b :: rest =>
    (if parseTokens a.file_name = parseTokens b.file_name then 0 else 1)
      + anyChange (b :: rest)
  | _ => 0

/-- Modelled from the claim wording of C2 (for refutation): if a whole
column of four records were closed whenever any axis label changes, plus a
final flush of all four open runs, the output would hold
`4 * anyChange images + 4` records. -/
def columnModelCount (images : List Image) : Nat := 4 * anyChange images + 4

/-- A well-formed image in the sense of the spec's input contract: the
before-the-first-dot part of `file_name` yields four tokens and each token,
normalized, is registered under its axis. -/
def imageOK (image : Image) : Bool :=
  match parseTokens image.file_name with
  | [t, a, q, f] =>
    (get_sequence_catid "task" (normalizeLabel t)).isSome &&
    (get_sequence_catid "activity" (normalizeLabel a)).isSome &&
    (get_sequence_catid "acquisition" (normalizeLabel q)).isSome &&
    (get_sequence_catid "frame" (normalizeLabel f)).isSome
  | _ => false

/-! Spec-side comparison definitions for the corrected claims. -/

/-- Join a list of strings with a separator (for rebuilding a filename stem). -/
def joinSep (sep : String) : List String → String
  | [] => ""
  | [s] => s
  | s :: rest => s ++ sep ++ joinSep sep rest

/-- Modelled from the claim wording of C3 (for refutation): the filename
stem in the usual sense, i.e. `file_name` with its (final) extension
removed; a name without a dot is its own stem. -/
def stemOf (file_name : String) : String :=
  if (pySplit '.' file_name).length ≤ 1 then file_name
  else joinSep "." (pySplit '.' file_name).dropLast

/-- Modelled from the claim wording of C3 (for refutation): parse the label
tokens from the stem, split on `-`, last four kept. -/
def parseTokensStem (file_name : String) : List String :=
  lastN 4 (pySplit '-' (stemOf file_name))

/-- Modelled from the claim wording of C4 (for refutation): strip one
leading `screw_` prefix if present, and only that. -/
def stripLeadingScrew (s : String) : String :=
  if s.data.take 6 = "screw_".data then String.mk (s.data.drop 6) else s

/-- `true` when the character list contains no occurrence of `screw_`
(matching the scan structure of `removeScrewAux`). -/
def screwFree : List Char → Bool
  | 's' :: 'c' :: 'r' :: 'e' :: 'w' :: '_' :: _ => false
  | _ :: cs => screwFree cs
  | [] => true

/-! Loop invariants used to prove the run-partition claims. -/

/-- Axis `i`'s normalized token of `image` is known to the registry under
`supercategory`. -/
def lookupSucceeds (i : Nat) (supercategory : String) (image : Image) : Prop :=
  ∃ t cid, tokenAt i image = some t ∧
    get_sequence_catid supercategory (normalizeLabel t) = some cid

/-- Axis-local loop invariant: the closed records of this axis, together
with the open run `(first_frame_ids[i], seq_lengths[i])`, exactly cover the
processed images, and one record was closed per token change so far. -/
def AxisInv (i : Nat) (supercategory : String) (st : LoopState)
    (done : List Image) : Prop :=
  ∃ f l,
    st.first_frame_ids.get? i = some f ∧
    st.seq_lengths.get? i = some l ∧
    0 < l ∧
    coversRuns ((axisRecords supercategory st.sequences).map runKey ++ [(f, l)])
      done = true ∧
    (axisRecords supercategory st.sequences).length = axisChanges i done

/-- Every processed image either already had its axis-`i` token looked up
successfully (its run closed), or its token is still the open one. -/
def AxisPending (i : Nat) (supercategory : String) (st : LoopState)
    (done : List Image) : Prop :=
  ∀ image ∈ done, lookupSucceeds i supercategory image ∨
    tokenAt i image = st.prev_seq_category_names.get? i

/-- The full loop invariant after processing a non-empty prefix `done`. -/
def Inv (st : LoopState) (done : List Image) : Prop :=
  (∃ last, done.getLast? = some last ∧
     st.prev_seq_category_names = parseTokens last.file_name) ∧
  st.prev_seq_category_names.length = 4 ∧
  st.first_frame_ids.length = 4 ∧
  st.seq_lengths.length = 4 ∧
  (∀ r ∈ st.sequences, ∃ p ∈ enumSupercats, catSup r.seq_category_id = some p.2) ∧
  (∀ p ∈ enumSupercats, AxisInv p.1 p.2 st done ∧ AxisPending p.1 p.2 st done)

/-- The weaker invariant used for error classification: only the shape
facts and the pending-lookup bookkeeping. -/
def InvShape (st : LoopState) (done : List Image) : Prop :=
  (∃ last, done.getLast? = some last ∧
     st.prev_seq_category_names = parseTokens last.file_name) ∧
  st.prev_seq_category_names.length = 4 ∧
  st.first_frame_ids.length = 4 ∧
  st.seq_lengths.length = 4 ∧
  (∀ p ∈ enumSupercats, AxisPending p.1 p.2 st done)

/-! Concrete example inputs. -/

/-- The three images of the spec's worked example (ids 1, 2, 3). -/
def exImages : List Image :=
  [⟨1, "s1-position_wire-ap-fluoro_hunting.png"⟩,
   ⟨2, "s1-position_wire-ap-fluoro_hunting.png"⟩,
   ⟨3, "s1-insert_wire-ap-fluoro_hunting.png"⟩]

/-- An annotation around `exImages`, with a stale `sequences` list and some
untouched extra entries. -/
def exAnnotation : Annotation :=
  ⟨exImages, [⟨99, 5, 5, 5⟩], [("info", "perphix")]⟩

/-- What `fix_sequences` produces on `exAnnotation`. -/
def exOut : Annotation :=
  ⟨exImages,
   [⟨0, 1, 2, 8⟩, ⟨1, 1, 3, 2⟩, ⟨2, 3, 1, 9⟩, ⟨3, 1, 3, 11⟩, ⟨4, 1, 3, 19⟩],
   [("info", "perphix")]⟩

/-- Two images with a single label change (on the activity axis only). -/
def exChangePair : List Image :=
  [⟨1, "s1-position_wire-ap-fluoro_hunting.png"⟩,
   ⟨2, "s1-insert_wire-ap-fluoro_hunting.png"⟩]

/-- An image whose frame token `BAD` is not in the registry. -/
def exBad : List Image := [⟨1, "s1-position_wire-ap-BAD.png"⟩]

/-- Decidable equality on `Except`, so that concrete runs of the embedded
code can be checked by `decide`. -/
instance {ε α : Type} [DecidableEq ε] [DecidableEq α] : DecidableEq (Except ε α) :=
  fun a b =>
    match a, b with
    | .error e, .error f =>
      if h : e = f then .isTrue (congrArg Except.error h)
      else .isFalse (fun hh => h (Except.error.inj hh))
    | .ok x, .ok y =>
      if h : x = y then .isTrue (congrArg Except.ok h)
      else .isFalse (fun hh => h (Except.ok.inj hh))
    | .error _, .ok _ => .isFalse (fun hh => Except.noConfusion hh)
    | .ok _, .error _ => .isFalse (fun hh => Except.noConfusion hh)

/-! ## Theorems -/

/-- The split of a string never produces the empty list (so Python's `[0]`
subscript after `split` cannot fail). -/
theorem splitOnChar_ne_nil (sep : Char) (l : List Char) : splitOnChar sep l ≠ [] := by
  cases l with
  | nil => simp [splitOnChar]
  | cons c cs =>
    simp only [splitOnChar]
    split
    · simp
    · split <;> simp

/-- A split with a single field is the whole string. -/
theorem splitOnChar_singleton (sep : Char) :
    ∀ l a, splitOnChar sep l = [a] → a = l := by
  intro l
  induction l with
  | nil => intro a h; simp [splitOnChar] at h; exact h
  | cons c cs ih =>
    intro a h
    simp only [splitOnChar] at h
    by_cases hc : c = sep
    · rw [if_pos hc] at h
      exact absurd (List.cons.inj h).2 (splitOnChar_ne_nil sep cs)
    · rw [if_neg hc] at h
      cases hr : splitOnChar sep cs with
      | nil => exact absurd hr (splitOnChar_ne_nil sep cs)
      | cons t ts =>
        rw [hr] at h
        obtain ⟨rfl, rfl⟩ := List.cons.inj h
        rw [ih t hr]

/-- A one-field `pySplit` means the separator does not occur: the field is
the whole string. -/
theorem pySplit_singleton (sep : Char) (s a : String)
    (h : pySplit sep s = [a]) : a = s := by
  unfold pySplit at h
  cases hr : splitOnChar sep s.data with
  | nil => exact absurd hr (splitOnChar_ne_nil sep s.data)
  | cons t ts =>
    rw [hr] at h
    simp only [List.map_cons] at h
    obtain ⟨rfl, hts⟩ := List.cons.inj h
    have : t = s.data := splitOnChar_singleton sep s.data t (by
      rw [hr, List.map_eq_nil_iff.mp hts])
    rw [this]

/-- `pySplit` is never the empty list. -/
theorem pySplit_ne_nil (sep : Char) (s : String) : pySplit sep s ≠ [] := by
  unfold pySplit
  intro h
  exact splitOnChar_ne_nil sep s.data (List.map_eq_nil_iff.mp h)

/-- A `screw_`-free character list is left unchanged by the replace scan. -/
theorem removeScrewAux_id_of_screwFree :
    ∀ l : List Char, screwFree l = true → removeScrewAux l = l := by
  intro l
  induction l with
  | nil => intro _; rfl
  | cons c cs ih =>
    intro h
    rw [removeScrewAux.eq_def]
    split
    · rename_i heq
      exact absurd heq (by simp)
    · rename_i heq
      rw [heq] at h
      simp [screwFree] at h
    · rename_i c' cs' hne heq
      obtain ⟨hc, hcs'⟩ := List.cons.inj heq
      subst hc
      subst hcs'
      have hcs : screwFree cs = true := by
        rw [screwFree.eq_def] at h
        split at h
        · simp at h
        · rename_i heq2
          obtain ⟨-, h2⟩ := List.cons.inj heq2
          rw [h2]
          exact h
        · rename_i heq2
          simp at heq2
      rw [ih hcs]

/-! List access wrappers bridging `get?` to the core `getElem?` lemmas. -/

theorem getq_set_same (l : List α) (i : Nat) (a : α) (h : i < l.length) :
    (l.set i a).get? i = some a := by
  rw [List.get?_eq_getElem?]
  exact List.getElem?_set_self h

theorem getq_set_other (l : List α) (i j : Nat) (a : α) (h : i ≠ j) :
    (l.set i a).get? j = l.get? j := by
  rw [List.get?_eq_getElem?, List.get?_eq_getElem?]
  exact List.getElem?_set_ne h

theorem lt_of_getq_some {l : List α} {i : Nat} {a : α} (h : l.get? i = some a) :
    i < l.length := by
  rw [List.get?_eq_getElem?] at h
  exact (List.getElem?_eq_some_iff.mp h).1

theorem getq_some_of_lt {l : List α} {i : Nat} (h : i < l.length) :
    ∃ a, l.get? i = some a := by
  rw [List.get?_eq_getElem?]
  exact ⟨l.get ⟨i, h⟩, List.getElem?_eq_some_iff.mpr ⟨h, rfl⟩⟩

/-! Facts about `coversRuns`. -/

/-- A covering run list accounts for every image exactly once. -/
theorem coversRuns_sum :
    ∀ (rs : List (Int × Nat)) (images : List Image),
      coversRuns rs images = true → (rs.map Prod.snd).sum = images.length := by
  intro rs
  induction rs with
  | nil =>
    intro images h
    simp [coversRuns] at h
    simp [h]
  | cons r rs ih =>
    intro images h
    obtain ⟨f, n⟩ := r
    simp only [coversRuns, Bool.and_eq_true, decide_eq_true_eq] at h
    obtain ⟨⟨⟨-, hn⟩, hle⟩, hrec⟩ := h
    have := ih (images.drop n) hrec
    simp only [List.map_cons, List.sum_cons]
    rw [this, List.length_drop]
    omega

/-- Extending the open run by the new image keeps the cover exact. -/
theorem coversRuns_extend :
    ∀ (ks : List (Int × Nat)) (images : List Image) (f : Int) (l : Nat)
      (image : Image),
      coversRuns (ks ++ [(f, l)]) images = true →
      coversRuns (ks ++ [(f, l + 1)]) (images ++ [image]) = true := by
  intro ks
  induction ks with
  | nil =>
    intro images f l image h
    cases images with
    | nil => simp [coversRuns] at h
    | cons a as =>
      simp only [List.nil_append, List.cons_append, coversRuns, List.head?_cons,
        Bool.and_eq_true, decide_eq_true_eq, beq_iff_eq] at h ⊢
      obtain ⟨⟨⟨hhead, hl⟩, hle⟩, hrest⟩ := h
      have hempty : (a :: as).drop l = [] := by
        simpa [coversRuns, List.isEmpty_iff] using hrest
      have hlen : l = as.length + 1 := by
        have := congrArg List.length hempty
        simp [List.length_drop] at this
        simp at hle
        omega
      refine ⟨⟨⟨hhead, by omega⟩, by simp; omega⟩, ?_⟩
      rw [List.drop_succ_cons]
      have : l = (as ++ [image]).length := by simp; omega
      rw [this, List.drop_length]
      simp [coversRuns]
  | cons k ks ih =>
    intro images f l image h
    obtain ⟨kf, kn⟩ := k
    cases images with
    | nil => simp [coversRuns] at h
    | cons a as =>
      simp only [List.cons_append, coversRuns, List.head?_cons,
        Bool.and_eq_true, decide_eq_true_eq, beq_iff_eq] at h ⊢
      obtain ⟨⟨⟨hhead, hn⟩, hle⟩, hrest⟩ := h
      refine ⟨⟨⟨hhead, hn⟩, by simp at hle ⊢; omega⟩, ?_⟩
      have hle2 : kn ≤ (a :: as).length := hle
      rw [show a :: (as ++ [image]) = (a :: as) ++ [image] by simp,
        List.drop_append_of_le_length hle2]
      exact ih ((a :: as).drop kn) f l image hrest

/-- Closing the current run and opening a fresh one at the new image keeps
the cover exact. -/
theorem coversRuns_close :
    ∀ (ks : List (Int × Nat)) (images : List Image) (f : Int) (l : Nat)
      (image : Image),
      coversRuns (ks ++ [(f, l)]) images = true →
      coversRuns (ks ++ [(f, l), (image.id, 1)]) (images ++ [image]) = true := by
  intro ks
  induction ks with
  | nil =>
    intro images f l image h
    cases images with
    | nil => simp [coversRuns] at h
    | cons a as =>
      simp only [List.nil_append, List.cons_append, coversRuns, List.head?_cons,
        Bool.and_eq_true, decide_eq_true_eq, beq_iff_eq] at h ⊢
      obtain ⟨⟨⟨hhead, hl⟩, hle⟩, hrest⟩ := h
      have hempty : (a :: as).drop l = [] := by
        simpa [coversRuns, List.isEmpty_iff] using hrest
      have hlen : l = as.length + 1 := by
        have := congrArg List.length hempty
        simp [List.length_drop] at this
        simp at hle
        omega
      refine ⟨⟨⟨hhead, hl⟩, by simp; omega⟩, ?_⟩
      have hstep : (a :: (as ++ [image])).drop l = (a :: as).drop l ++ [image] := by
        rw [show a :: (as ++ [image]) = (a :: as) ++ [image] by simp,
          List.drop_append_of_le_length hle]
      rw [hstep, hempty]
      simp [coversRuns]
  | cons k ks ih =>
    intro images f l image h
    obtain ⟨kf, kn⟩ := k
    cases images with
    | nil => simp [coversRuns] at h
    | cons a as =>
      simp only [List.cons_append, coversRuns, List.head?_cons,
        Bool.and_eq_true, decide_eq_true_eq, beq_iff_eq] at h ⊢
      obtain ⟨⟨⟨hhead, hn⟩, hle⟩, hrest⟩ := h
      refine ⟨⟨⟨hhead, hn⟩, by simp at hle ⊢; omega⟩, ?_⟩
      have hle2 : kn ≤ (a :: as).length := hle
      rw [show a :: (as ++ [image]) = (a :: as) ++ [image] by simp,
        List.drop_append_of_le_length hle2]
      exact ih ((a :: as).drop kn) f l image hrest

/-- Appending one image adds one change exactly when its token differs from
the previous last image's token. -/
theorem axisChanges_append (i : Nat) :
    ∀ (done : List Image) (last image : Image),
      done.getLast? = some last →
      axisChanges i (done ++ [image]) =
        axisChanges i done + (if tokenAt i last = tokenAt i image then 0 else 1) := by
  intro done
  induction done with
  | nil => intro last image h; simp at h
  | cons a rest ih =>
    intro last image h
    cases rest with
    | nil =>
      simp only [List.getLast?_singleton, Option.some.injEq] at h
      subst h
      simp [axisChanges]
    | cons b rest2 =>
      have hlast : (b :: rest2).getLast? = some last := by
        rw [← List.getLast?_cons_cons]
        exact h
      have hrec := ih last image hlast
      simp only [List.cons_append, axisChanges, List.append_eq] at hrec ⊢
      rw [hrec]
      omega

/-! Registry facts. -/

/-- Ids are unique in the registry: looking an entry's id back up finds that
entry. -/
theorem find?_id_unique :
    ∀ c ∈ seq_categories, seq_categories.find? (fun d => d.id == c.id) = some c := by
  decide

/-- A successful `(supercategory, name)` lookup yields an id registered under
that same supercategory. -/
theorem catSup_of_lookup (supercategory name : String) (cid : Nat)
    (h : get_sequence_catid supercategory name = some cid) :
    catSup cid = some supercategory := by
  unfold get_sequence_catid at h
  cases hf : seq_categories.find? fun c =>
      c.supercategory == supercategory && c.name == name with
  | none => rw [hf] at h; simp at h
  | some c =>
    rw [hf] at h
    have h2 : c.id = cid := by
      have hmm : Option.map (fun c => c.id) (some c) = some c.id := rfl
      rw [hmm] at h
      exact Option.some.inj h
    have hmem : c ∈ seq_categories := List.mem_of_find?_eq_some hf
    have hpred := List.find?_some hf
    simp only [Bool.and_eq_true, beq_iff_eq] at hpred
    unfold catSup
    rw [← h2, find?_id_unique c hmem]
    have hm : Option.map (fun c => c.supercategory) (some c) = some c.supercategory := rfl
    rw [hm, hpred.1]

/-- Claim C2, counterexample: on two images whose labels differ only on the
activity axis, the code emits 5 sequence records (one close for the changed
axis, then the four-record flush), not the 8 records the column model of the
claim predicts. -/
theorem C2_counterexample :
    (fix_sequences_images exChangePair).toOption.map List.length = some 5 ∧
    columnModelCount exChangePair = 8 ∧
    (fix_sequences_images exChangePair).toOption.map List.length
      ≠ some (columnModelCount exChangePair) := by decide

/-- Claim C3, counterexample: for a file name with two dots whose stem
still splits into at least 4 dash-tokens, the code (which keeps only the
part before the first dot) disagrees with the stem-based parse the claim
describes. -/
theorem C3_counterexample :
    4 ≤ (pySplit '-' (stemOf "v.1-s1-position_wire-ap-fluoro_hunting.png")).length ∧
    parseTokens "v.1-s1-position_wire-ap-fluoro_hunting.png"
      ≠ parseTokensStem "v.1-s1-position_wire-ap-fluoro_hunting.png" := by decide

/-- Claim C3, amended: `fix_sequences` parses the label tuple from the part
of `file_name` before the first `.` (split on `-`, last four tokens kept);
this agrees with the stem-based parse exactly when the file name has at most
one dot. -/
theorem C3_before_first_dot (file_name : String)
    (h : (pySplit '.' file_name).length ≤ 2) :
    parseTokens file_name = parseTokensStem file_name := by
  unfold parseTokens parseTokensStem rawTokens stemOf
  rcases hp : pySplit '.' file_name with _ | ⟨a, _ | ⟨b, _ | ⟨c, r⟩⟩⟩
  · exact absurd hp (pySplit_ne_nil '.' file_name)
  · have ha : a = file_name := pySplit_singleton '.' file_name a hp
    subst ha
    simp [joinSep]
  · simp [joinSep]
  · rw [hp] at h
    simp at h

/-- Witness for `C3_before_first_dot` at a single-dot file name. -/
theorem C3_witness :
    parseTokens "s1-position_wire-ap-fluoro_hunting.png"
      = parseTokensStem "s1-position_wire-ap-fluoro_hunting.png" :=
  C3_before_first_dot "s1-position_wire-ap-fluoro_hunting.png" (by decide)

/-- Claim C4, counterexample: the code normalizes with
`replace("screw_", "")`, which removes every occurrence, not only a leading
prefix: on the token `insert_screw_screw` (whose only `screw_` occurrence is
not a prefix) the claim says the token is looked up unchanged (a failing
lookup), while the code looks up `insert_screw` (a successful lookup). -/
theorem C4_counterexample :
    normalizeLabel "insert_screw_screw" = "insert_screw" ∧
    stripLeadingScrew "insert_screw_screw" = "insert_screw_screw" ∧
    normalizeLabel "insert_screw_screw"
      ≠ stripLeadingScrew "insert_screw_screw" ∧
    get_sequence_catid "activity" (normalizeLabel "insert_screw_screw") = some 10 ∧
    get_sequence_catid "activity" (stripLeadingScrew "insert_screw_screw") = none := by
  decide

/-- Claim C4, amended: before the lookup the closing token is normalized by
deleting every (left-to-right, non-overlapping) occurrence of the substring
`screw_`, wherever it occurs — in particular `screw_insert_screw` is looked
up as `insert_screw`, a token without any `screw_` occurrence is looked up
unchanged, and a token with a non-prefix occurrence also has it removed. -/
theorem C4_replace_all (s : String) (h : screwFree s.data = true) :
    normalizeLabel s = s ∧
    normalizeLabel "screw_insert_screw" = "insert_screw" ∧
    normalizeLabel "insert_screw_screw" = "insert_screw" := by
  refine ⟨?_, by decide, by decide⟩
  unfold normalizeLabel
  rw [removeScrewAux_id_of_screwFree s.data h]

/-- Witness for `C4_replace_all` at a `screw_`-free token. -/
theorem C4_witness :
    normalizeLabel "position_wire" = "position_wire" ∧
    normalizeLabel "screw_insert_screw" = "insert_screw" ∧
    normalizeLabel "insert_screw_screw" = "insert_screw" :=
  C4_replace_all "position_wire" (by decide)

/-- Frame helper: a successful `fix_sequences` only replaces `sequences`. -/
theorem fix_sequences_frame ( annotation out : Annotation)
    (h : fix_sequences annotation = .ok out) :
    out.images = annotation.images ∧ out.extra = annotation.extra ∧
    fix_sequences_images annotation.images = .ok out.sequences := by
  unfold fix_sequences at h
  cases hc : fix_sequences_images annotation.images with
  | error e => rw [hc] at h; exact absurd h (by simp)
  | ok seqs =>
    rw [hc] at h
    simp only [Except.ok.injEq] at h
    subst h
    exact ⟨rfl, rfl, rfl⟩

/-- Claim C5: when `fix_sequences` returns, the result agrees with its input
on every field other than `sequences` (the routine works on a deep copy and
never mutates the caller's data; in this pure embedding the input value is
untouched by construction), and `sequences` holds exactly the freshly
computed records. -/
theorem C5_frame ( annotation out : Annotation)
    (h : fix_sequences annotation = .ok out) :
    out.images = annotation.images ∧ out.extra = annotation.extra ∧
    fix_sequences_images annotation.images = .ok out.sequences :=
  fix_sequences_frame annotation out h

/-- Witness for `C5_frame` on the worked example. -/
theorem C5_witness :
    exOut.images = exAnnotation.images ∧ exOut.extra = exAnnotation.extra ∧
    fix_sequences_images exAnnotation.images = .ok exOut.sequences :=
  C5_frame exAnnotation exOut (by decide)

/-- Claim C7: `fix_sequences` is a pure function of its input (equal inputs
give equal outputs), and it is idempotent: feeding a successful output back
in returns that output unchanged, because the images are unchanged and the
recomputed sequence list reproduces the stored one. -/
theorem C7_deterministic_idempotent (a b out : Annotation) :
    (a = b → fix_sequences a = fix_sequences b) ∧
    (fix_sequences a = .ok out → fix_sequences out = .ok out) := by
  constructor
  · intro h; rw [h]
  · intro h
    obtain ⟨himg, -, hseq⟩ := fix_sequences_frame a out h
    have hseq2 : fix_sequences_images out.images = Except.ok out.sequences := by
      rw [himg]; exact hseq
    unfold fix_sequences
    rw [hseq2]

/-- Witness for `C7_deterministic_idempotent` on the worked example. -/
theorem C7_witness :
    fix_sequences exAnnotation = fix_sequences exAnnotation ∧
    fix_sequences exOut = .ok exOut :=
  ⟨(C7_deterministic_idempotent exAnnotation exAnnotation exOut).1 rfl,
   (C7_deterministic_idempotent exAnnotation exAnnotation exOut).2 (by decide)⟩

/-- Claim C8: on the spec's three-image example the activity axis gets
exactly two records, in order: `(first_frame_id 1, seq_length 2,
position_wire)` then the flush record `(first_frame_id 3, seq_length 1,
insert_wire)`. -/
theorem C8_activity_example :
    get_sequence_catid "activity" "position_wire" = some 8 ∧
    get_sequence_catid "activity" "insert_wire" = some 9 ∧
    (fix_sequences_images exImages).toOption.map
        (fun seqs => (axisRecords "activity" seqs).map
          (fun r => (r.first_frame_id, r.seq_length, r.seq_category_id)))
      = some [(1, 2, 8), (3, 1, 9)] := by decide

/-! Unpacking the well-formedness predicate and frame lemmas for the loop
invariant. -/

theorem enumSupercats_eq :
    enumSupercats = [(0, "task"), (1, "activity"), (2, "acquisition"), (3, "frame")] := rfl

/-- A well-formed image parses to exactly four tokens, each known to the
registry under its axis. -/
theorem imageOK_unpack (image : Image) (h : imageOK image = true) :
    (parseTokens image.file_name).length = 4 ∧
    ∀ p ∈ enumSupercats, lookupSucceeds p.1 p.2 image := by
  unfold imageOK at h
  split at h
  · rename_i t a q f heq
    simp only [Bool.and_eq_true, Option.isSome_iff_exists] at h
    obtain ⟨⟨⟨⟨c0, h0⟩, c1, h1⟩, c2, h2⟩, c3, h3⟩ := h
    refine ⟨by rw [heq]; rfl, ?_⟩
    intro p hp
    rw [enumSupercats_eq] at hp
    simp only [List.mem_cons, List.not_mem_nil, or_false] at hp
    rcases hp with rfl | rfl | rfl | rfl
    · exact ⟨t, c0, by rw [tokenAt, heq]; rfl, h0⟩
    · exact ⟨a, c1, by rw [tokenAt, heq]; rfl, h1⟩
    · exact ⟨q, c2, by rw [tokenAt, heq]; rfl, h2⟩
    · exact ⟨f, c3, by rw [tokenAt, heq]; rfl, h3⟩
  · simp at h

/-- `AxisInv` only looks at the axis's own slots and records. -/
theorem AxisInv_frame (i : Nat) (supercategory : String) (st st₂ : LoopState)
    (done : List Image)
    (hf : st₂.first_frame_ids.get? i = st.first_frame_ids.get? i)
    (hl : st₂.seq_lengths.get? i = st.seq_lengths.get? i)
    (hrec : axisRecords supercategory st₂.sequences
      = axisRecords supercategory st.sequences)
    (h : AxisInv i supercategory st done) : AxisInv i supercategory st₂ done := by
  obtain ⟨f, l, h1, h2, h3, h4, h5⟩ := h
  exact ⟨f, l, by rw [hf]; exact h1, by rw [hl]; exact h2, h3,
    by rw [hrec]; exact h4, by rw [hrec]; exact h5⟩

/-- `AxisPending` only looks at the axis's own `prev` slot. -/
theorem AxisPending_frame (i : Nat) (supercategory : String) (st st₂ : LoopState)
    (done : List Image)
    (hp : st₂.prev_seq_category_names.get? i = st.prev_seq_category_names.get? i)
    (h : AxisPending i supercategory st done) :
    AxisPending i supercategory st₂ done := by
  intro image hmem
  rcases h image hmem with hs | ht
  · exact Or.inl hs
  · exact Or.inr (by rw [hp]; exact ht)

/-- Appending a record of this axis to the output extends the axis's slice. -/
theorem axisRecords_append_own (supercategory : String) (seqs : List Seq) (r : Seq)
    (h : catSup r.seq_category_id = some supercategory) :
    axisRecords supercategory (seqs ++ [r]) = axisRecords supercategory seqs ++ [r] := by
  simp [axisRecords, List.filter_append, List.filter_cons, h]

/-- Appending a record of another axis leaves this axis's slice unchanged. -/
theorem axisRecords_append_other (supercategory sup2 : String) (seqs : List Seq)
    (r : Seq) (h : catSup r.seq_category_id = some supercategory)
    (hne : supercategory ≠ sup2) :
    axisRecords sup2 (seqs ++ [r]) = axisRecords sup2 seqs := by
  simp [axisRecords, List.filter_append, List.filter_cons, h, hne]

/-- `stepAxis` with its pair argument split, for rewriting. -/
theorem stepAxis_pair (image_id : Int) (cur : List String) (st : LoopState)
    (i : Nat) (sup : String) :
    stepAxis image_id cur st (i, sup) =
      match cur.get? i, st.prev_seq_category_names.get? i with
      | some c, some p =>
        if c = p then bumpRun c i st
        else
          match closeRun image_id st i sup p with
          | .ok st₁ => bumpRun c i st₁
          | .error e => .error e
      | _, _ => .error .indexError := rfl

/-- One successful axis step, described at the level the invariant needs:
the axis's own run state is extended or closed-and-reopened, and every other
axis's slots and record slices are untouched. -/
theorem stepAxis_transfer (image : Image) (cur : List String) (st : LoopState)
    (i : Nat) (supercategory : String) (done : List Image) (c p : String)
    (cid : Nat)
    (hc : cur.get? i = some c)
    (hp : st.prev_seq_category_names.get? i = some p)
    (hlook : c ≠ p → get_sequence_catid supercategory (normalizeLabel p) = some cid)
    (hAx : AxisInv i supercategory st done)
    (hPend : AxisPending i supercategory st done)
    (last : Image) (hlast : done.getLast? = some last)
    (hTokLast : tokenAt i last = some p)
    (hTokImg : tokenAt i image = some c) :
    ∃ st₂, stepAxis image.id cur st (i, supercategory) = .ok st₂ ∧
      AxisInv i supercategory st₂ (done ++ [image]) ∧
      AxisPending i supercategory st₂ (done ++ [image]) ∧
      st₂.prev_seq_category_names = st.prev_seq_category_names.set i c ∧
      st₂.first_frame_ids.length = st.first_frame_ids.length ∧
      st₂.seq_lengths.length = st.seq_lengths.length ∧
      (∀ j, j ≠ i → st₂.first_frame_ids.get? j = st.first_frame_ids.get? j) ∧
      (∀ j, j ≠ i → st₂.seq_lengths.get? j = st.seq_lengths.get? j) ∧
      (∀ sup2, sup2 ≠ supercategory →
        axisRecords sup2 st₂.sequences = axisRecords sup2 st.sequences) ∧
      (∀ r ∈ st₂.sequences, r ∈ st.sequences ∨
        catSup r.seq_category_id = some supercategory) := by
  obtain ⟨f, l, hf, hl, hlpos, hcov, hcnt⟩ := hAx
  have hchanges := axisChanges_append i done last image hlast
  by_cases hcp : c = p
  · refine ⟨{ st with
        seq_lengths := st.seq_lengths.set i (l + 1),
        prev_seq_category_names := st.prev_seq_category_names.set i c },
      ?_, ?_, ?_, rfl, rfl, by simp, ?_, ?_, ?_, ?_⟩
    · simp only [stepAxis_pair, hc, hp]
      rw [if_pos hcp]
      unfold bumpRun
      rw [hl]
    · refine ⟨f, l + 1, hf, getq_set_same _ _ _ (lt_of_getq_some hl), by omega,
        ?_, ?_⟩
      · exact coversRuns_extend _ done f l image hcov
      · rw [hchanges, hTokLast, hTokImg]
        simp [hcp, hcnt]
    · intro img hmem
      rcases List.mem_append.mp hmem with hin | hin
      · rcases hPend img hin with hs | ht
        · exact Or.inl hs
        · refine Or.inr ?_
          rw [ht, hp]
          have := getq_set_same st.prev_seq_category_names i c
            (lt_of_getq_some hp)
          rw [this, hcp]
      · simp only [List.mem_singleton] at hin
        subst hin
        refine Or.inr ?_
        rw [hTokImg]
        have := getq_set_same st.prev_seq_category_names i c
          (lt_of_getq_some hp)
        rw [this]
    · intro j hj
      rfl
    · intro j hj
      exact getq_set_other _ _ _ _ (Ne.symm hj)
    · intro sup2 hne
      rfl
    · intro r hr
      exact Or.inl hr
  · have hlook2 := hlook hcp
    have hcatsup : catSup cid = some supercategory :=
      catSup_of_lookup supercategory (normalizeLabel p) cid hlook2
    refine ⟨{ st with
        sequences := st.sequences ++ [⟨st.sequences.length, f, l, cid⟩],
        prev_seq_category_names := st.prev_seq_category_names.set i c,
        first_frame_ids := st.first_frame_ids.set i image.id,
        seq_lengths := st.seq_lengths.set i 1 },
      ?_, ?_, ?_, rfl, by simp, by simp, ?_, ?_, ?_, ?_⟩
    · have hclosed : closeRun image.id st i supercategory p = .ok
          { st with
            sequences := st.sequences ++ [⟨st.sequences.length, f, l, cid⟩],
            first_frame_ids := st.first_frame_ids.set i image.id,
            seq_lengths := st.seq_lengths.set i 0 } := by
        unfold closeRun
        rw [hf, hl, hlook2]
      have hbump : bumpRun c i
          { st with
            sequences := st.sequences ++ [⟨st.sequences.length, f, l, cid⟩],
            first_frame_ids := st.first_frame_ids.set i image.id,
            seq_lengths := st.seq_lengths.set i 0 } = .ok
          { st with
            sequences := st.sequences ++ [⟨st.sequences.length, f, l, cid⟩],
            prev_seq_category_names := st.prev_seq_category_names.set i c,
            first_frame_ids := st.first_frame_ids.set i image.id,
            seq_lengths := st.seq_lengths.set i 1 } := by
        unfold bumpRun
        rw [show (st.seq_lengths.set i 0).get? i = some 0 from
          getq_set_same _ _ _ (lt_of_getq_some hl)]
        simp [List.set_set]
      simp only [stepAxis_pair, hc, hp]
      rw [if_neg hcp]
      simp only [hclosed]
      exact hbump
    · refine ⟨image.id, 1,
        getq_set_same _ _ _ (lt_of_getq_some hf),
        getq_set_same _ _ _ (lt_of_getq_some hl), by omega, ?_, ?_⟩
      · have hax := axisRecords_append_own supercategory st.sequences
          ⟨st.sequences.length, f, l, cid⟩ hcatsup
        simp only [hax, List.map_append]
        have hclose := coversRuns_close
          ((axisRecords supercategory st.sequences).map runKey) done f l image hcov
        simp only [runKey, List.append_assoc] at hclose ⊢
        exact hclose
      · have hax := axisRecords_append_own supercategory st.sequences
          ⟨st.sequences.length, f, l, cid⟩ hcatsup
        rw [hax, hchanges, hTokLast, hTokImg]
        rw [if_neg (fun hh => hcp (Option.some.inj hh).symm)]
        simp [hcnt]
    · intro img hmem
      rcases List.mem_append.mp hmem with hin | hin
      · rcases hPend img hin with hs | ht
        · exact Or.inl hs
        · refine Or.inl ?_
          exact ⟨p, cid, by rw [ht, hp], hlook2⟩
      · simp only [List.mem_singleton] at hin
        subst hin
        refine Or.inr ?_
        rw [hTokImg]
        have := getq_set_same st.prev_seq_category_names i c
          (lt_of_getq_some hp)
        rw [this]
    · intro j hj
      exact getq_set_other _ _ _ _ (Ne.symm hj)
    · intro j hj
      exact getq_set_other _ _ _ _ (Ne.symm hj)
    · intro sup2 hne
      exact axisRecords_append_other supercategory sup2 st.sequences
        ⟨st.sequences.length, f, l, cid⟩ hcatsup (Ne.symm hne)
    · intro r hr
      rcases List.mem_append.mp hr with hin | hin
      · exact Or.inl hin
      · simp only [List.mem_singleton] at hin
        subst hin
        exact Or.inr hcatsup

theorem exbind_ok {α β : Type} (a : α) (g : α → Except PyError β) :
    (Except.ok a >>= g) = g a := rfl

theorem expure_eq {α : Type} (a : α) : (pure a : Except PyError α) = .ok a := rfl

/-- Setting all four slots of a length-4 list to the entries of another
length-4 list yields that other list. -/
theorem set4_eq (P cur : List String) (c0 c1 c2 c3 : String)
    (hP : P.length = 4) (hcl : cur.length = 4)
    (h0 : cur.get? 0 = some c0) (h1 : cur.get? 1 = some c1)
    (h2 : cur.get? 2 = some c2) (h3 : cur.get? 3 = some c3) :
    (((P.set 0 c0).set 1 c1).set 2 c2).set 3 c3 = cur := by
  rcases P with _ | ⟨x0, _ | ⟨x1, _ | ⟨x2, _ | ⟨x3, Prest⟩⟩⟩⟩ <;> simp at hP
  rcases cur with _ | ⟨y0, _ | ⟨y1, _ | ⟨y2, _ | ⟨y3, crest⟩⟩⟩⟩ <;> simp at hcl
  subst hP
  subst hcl
  simp only [List.get?] at h0 h1 h2 h3
  obtain rfl := Option.some.inj h0
  obtain rfl := Option.some.inj h1
  obtain rfl := Option.some.inj h2
  obtain rfl := Option.some.inj h3
  rfl

/-- Processing one well-formed image preserves the loop invariant. -/
theorem stepImage_inv (st : LoopState) (done : List Image) (image : Image)
    (hInv : Inv st done) (hdoneOK : ∀ img ∈ done, imageOK img = true)
    (hImgOK : imageOK image = true) :
    ∃ st₂, stepImage st image = .ok st₂ ∧ Inv st₂ (done ++ [image]) := by
  obtain ⟨⟨last, hlast, hprev⟩, hplen, hflen, hllen, hrecAx, hAxes⟩ := hInv
  have hlastOK := hdoneOK last (List.mem_of_getLast?_eq_some hlast)
  obtain ⟨hlastLen, hlastLook⟩ := imageOK_unpack last hlastOK
  obtain ⟨hcurLen, -⟩ := imageOK_unpack image hImgOK
  -- the previous image's four tokens
  obtain ⟨p0, hp0⟩ := getq_some_of_lt
    (show 0 < st.prev_seq_category_names.length by omega)
  obtain ⟨p1, hp1⟩ := getq_some_of_lt
    (show 1 < st.prev_seq_category_names.length by omega)
  obtain ⟨p2, hp2⟩ := getq_some_of_lt
    (show 2 < st.prev_seq_category_names.length by omega)
  obtain ⟨p3, hp3⟩ := getq_some_of_lt
    (show 3 < st.prev_seq_category_names.length by omega)
  have hTokLast0 : tokenAt 0 last = some p0 := by unfold tokenAt; rw [← hprev]; exact hp0
  have hTokLast1 : tokenAt 1 last = some p1 := by unfold tokenAt; rw [← hprev]; exact hp1
  have hTokLast2 : tokenAt 2 last = some p2 := by unfold tokenAt; rw [← hprev]; exact hp2
  have hTokLast3 : tokenAt 3 last = some p3 := by unfold tokenAt; rw [← hprev]; exact hp3
  -- the previous tokens are all known to the registry
  obtain ⟨t0, cid0, ht0, hlook0⟩ := hlastLook (0, "task") (by rw [enumSupercats_eq]; simp)
  obtain ⟨t1, cid1, ht1, hlook1⟩ := hlastLook (1, "activity") (by rw [enumSupercats_eq]; simp)
  obtain ⟨t2, cid2, ht2, hlook2⟩ := hlastLook (2, "acquisition") (by rw [enumSupercats_eq]; simp)
  obtain ⟨t3, cid3, ht3, hlook3⟩ := hlastLook (3, "frame") (by rw [enumSupercats_eq]; simp)
  rw [Option.some.inj (ht0.symm.trans hTokLast0)] at hlook0
  rw [Option.some.inj (ht1.symm.trans hTokLast1)] at hlook1
  rw [Option.some.inj (ht2.symm.trans hTokLast2)] at hlook2
  rw [Option.some.inj (ht3.symm.trans hTokLast3)] at hlook3
  -- the current image's four tokens
  obtain ⟨c0, hc0⟩ := getq_some_of_lt
    (show 0 < (parseTokens image.file_name).length by omega)
  obtain ⟨c1, hc1⟩ := getq_some_of_lt
    (show 1 < (parseTokens image.file_name).length by omega)
  obtain ⟨c2, hc2⟩ := getq_some_of_lt
    (show 2 < (parseTokens image.file_name).length by omega)
  obtain ⟨c3, hc3⟩ := getq_some_of_lt
    (show 3 < (parseTokens image.file_name).length by omega)
  have hTokImg0 : tokenAt 0 image = some c0 := hc0
  have hTokImg1 : tokenAt 1 image = some c1 := hc1
  have hTokImg2 : tokenAt 2 image = some c2 := hc2
  have hTokImg3 : tokenAt 3 image = some c3 := hc3
  -- per-axis invariants of the incoming state
  have hmem0 : ((0 : Nat), "task") ∈ enumSupercats := by rw [enumSupercats_eq]; simp
  have hmem1 : ((1 : Nat), "activity") ∈ enumSupercats := by rw [enumSupercats_eq]; simp
  have hmem2 : ((2 : Nat), "acquisition") ∈ enumSupercats := by rw [enumSupercats_eq]; simp
  have hmem3 : ((3 : Nat), "frame") ∈ enumSupercats := by rw [enumSupercats_eq]; simp
  obtain ⟨hAx0, hPend0⟩ := hAxes (0, "task") hmem0
  obtain ⟨hAx1, hPend1⟩ := hAxes (1, "activity") hmem1
  obtain ⟨hAx2, hPend2⟩ := hAxes (2, "acquisition") hmem2
  obtain ⟨hAx3, hPend3⟩ := hAxes (3, "frame") hmem3
  -- axis 0
  obtain ⟨st1, heq0, hAx0n, hPend0n, hpr0, hfl0, hll0, hff0, hlf0, hrc0, hmm0⟩ :=
    stepAxis_transfer image (parseTokens image.file_name) st 0 "task" done
      c0 p0 cid0 hc0 hp0 (fun _ => hlook0) hAx0 hPend0 last hlast hTokLast0 hTokImg0
  -- axis 1
  obtain ⟨st2, heq1, hAx1n, hPend1n, hpr1, hfl1, hll1, hff1, hlf1, hrc1, hmm1⟩ :=
    stepAxis_transfer image (parseTokens image.file_name) st1 1 "activity" done
      c1 p1 cid1 hc1
      (by rw [hpr0, getq_set_other _ _ _ _ (by omega)]; exact hp1)
      (fun _ => hlook1)
      (AxisInv_frame 1 "activity" st st1 done (hff0 1 (by omega))
        (hlf0 1 (by omega)) (hrc0 "activity" (by decide)) hAx1)
      (AxisPending_frame 1 "activity" st st1 done
        (by rw [hpr0, getq_set_other _ _ _ _ (by omega)]) hPend1)
      last hlast hTokLast1 hTokImg1
  -- axis 2
  obtain ⟨st3, heq2, hAx2n, hPend2n, hpr2, hfl2, hll2, hff2, hlf2, hrc2, hmm2⟩ :=
    stepAxis_transfer image (parseTokens image.file_name) st2 2 "acquisition" done
      c2 p2 cid2 hc2
      (by rw [hpr1, getq_set_other _ _ _ _ (by omega), hpr0,
        getq_set_other _ _ _ _ (by omega)]; exact hp2)
      (fun _ => hlook2)
      (AxisInv_frame 2 "acquisition" st1 st2 done (hff1 2 (by omega))
        (hlf1 2 (by omega)) (hrc1 "acquisition" (by decide))
        (AxisInv_frame 2 "acquisition" st st1 done (hff0 2 (by omega))
          (hlf0 2 (by omega)) (hrc0 "acquisition" (by decide)) hAx2))
      (AxisPending_frame 2 "acquisition" st1 st2 done
        (by rw [hpr1, getq_set_other _ _ _ _ (by omega)])
        (AxisPending_frame 2 "acquisition" st st1 done
          (by rw [hpr0, getq_set_other _ _ _ _ (by omega)]) hPend2))
      last hlast hTokLast2 hTokImg2
  -- axis 3
  obtain ⟨st4, heq3, hAx3n, hPend3n, hpr3, hfl3, hll3, hff3, hlf3, hrc3, hmm3⟩ :=
    stepAxis_transfer image (parseTokens image.file_name) st3 3 "frame" done
      c3 p3 cid3 hc3
      (by rw [hpr2, getq_set_other _ _ _ _ (by omega), hpr1,
        getq_set_other _ _ _ _ (by omega), hpr0,
        getq_set_other _ _ _ _ (by omega)]; exact hp3)
      (fun _ => hlook3)
      (AxisInv_frame 3 "frame" st2 st3 done (hff2 3 (by omega))
        (hlf2 3 (by omega)) (hrc2 "frame" (by decide))
        (AxisInv_frame 3 "frame" st1 st2 done (hff1 3 (by omega))
          (hlf1 3 (by omega)) (hrc1 "frame" (by decide))
          (AxisInv_frame 3 "frame" st st1 done (hff0 3 (by omega))
            (hlf0 3 (by omega)) (hrc0 "frame" (by decide)) hAx3)))
      (AxisPending_frame 3 "frame" st2 st3 done
        (by rw [hpr2, getq_set_other _ _ _ _ (by omega)])
        (AxisPending_frame 3 "frame" st1 st2 done
          (by rw [hpr1, getq_set_other _ _ _ _ (by omega)])
          (AxisPending_frame 3 "frame" st st1 done
            (by rw [hpr0, getq_set_other _ _ _ _ (by omega)]) hPend3)))
      last hlast hTokLast3 hTokImg3
  -- compose: the fold over the four axes runs the four steps
  have hrun : stepImage st image = .ok st4 := by
    unfold stepImage
    rw [enumSupercats_eq]
    simp only [List.foldlM]
    rw [heq0, exbind_ok, heq1, exbind_ok, heq2, exbind_ok, heq3, exbind_ok,
      expure_eq]
  -- the final prev list is the current image's token list
  have hprev4 : st4.prev_seq_category_names = parseTokens image.file_name := by
    rw [hpr3, hpr2, hpr1, hpr0]
    exact set4_eq _ _ c0 c1 c2 c3 hplen hcurLen hc0 hc1 hc2 hc3
  refine ⟨st4, hrun, ⟨image, List.getLast?_concat _, hprev4⟩, ?_, ?_, ?_, ?_, ?_⟩
  · rw [hprev4]; exact hcurLen
  · rw [hfl3, hfl2, hfl1, hfl0]; exact hflen
  · rw [hll3, hll2, hll1, hll0]; exact hllen
  · intro r hr
    rcases hmm3 r hr with hr3 | hs3
    · rcases hmm2 r hr3 with hr2 | hs2
      · rcases hmm1 r hr2 with hr1 | hs1
        · rcases hmm0 r hr1 with hr0 | hs0
          · exact hrecAx r hr0
          · exact ⟨(0, "task"), hmem0, hs0⟩
        · exact ⟨(1, "activity"), hmem1, hs1⟩
      · exact ⟨(2, "acquisition"), hmem2, hs2⟩
    · exact ⟨(3, "frame"), hmem3, hs3⟩
  · intro q hq
    rw [enumSupercats_eq] at hq
    simp only [List.mem_cons, List.not_mem_nil, or_false] at hq
    rcases hq with rfl | rfl | rfl | rfl
    · refine ⟨?_, ?_⟩
      · exact AxisInv_frame 0 "task" st3 st4 (done ++ [image])
          (hff3 0 (by omega)) (hlf3 0 (by omega)) (hrc3 "task" (by decide))
          (AxisInv_frame 0 "task" st2 st3 (done ++ [image])
            (hff2 0 (by omega)) (hlf2 0 (by omega)) (hrc2 "task" (by decide))
            (AxisInv_frame 0 "task" st1 st2 (done ++ [image])
              (hff1 0 (by omega)) (hlf1 0 (by omega)) (hrc1 "task" (by decide))
              hAx0n))
      · exact AxisPending_frame 0 "task" st3 st4 (done ++ [image])
          (by rw [hpr3, getq_set_other _ _ _ _ (by omega)])
          (AxisPending_frame 0 "task" st2 st3 (done ++ [image])
            (by rw [hpr2, getq_set_other _ _ _ _ (by omega)])
            (AxisPending_frame 0 "task" st1 st2 (done ++ [image])
              (by rw [hpr1, getq_set_other _ _ _ _ (by omega)])
              hPend0n))
    · refine ⟨?_, ?_⟩
      · exact AxisInv_frame 1 "activity" st3 st4 (done ++ [image])
          (hff3 1 (by omega)) (hlf3 1 (by omega)) (hrc3 "activity" (by decide))
          (AxisInv_frame 1 "activity" st2 st3 (done ++ [image])
            (hff2 1 (by omega)) (hlf2 1 (by omega)) (hrc2 "activity" (by decide))
            hAx1n)
      · exact AxisPending_frame 1 "activity" st3 st4 (done ++ [image])
          (by rw [hpr3, getq_set_other _ _ _ _ (by omega)])
          (AxisPending_frame 1 "activity" st2 st3 (done ++ [image])
            (by rw [hpr2, getq_set_other _ _ _ _ (by omega)])
            hPend1n)
    · refine ⟨?_, ?_⟩
      · exact AxisInv_frame 2 "acquisition" st3 st4 (done ++ [image])
          (hff3 2 (by omega)) (hlf3 2 (by omega)) (hrc3 "acquisition" (by decide))
          hAx2n
      · exact AxisPending_frame 2 "acquisition" st3 st4 (done ++ [image])
          (by rw [hpr3, getq_set_other _ _ _ _ (by omega)])
          hPend2n
    · exact ⟨hAx3n, hPend3n⟩

theorem exbind_err {α β : Type} (e : PyError) (g : α → Except PyError β) :
    (Except.error e >>= g) = .error e := rfl

/-- Shape-level classification of one axis step: with the four subscripts in
bounds, the step either succeeds (consulting the registry only when the
token changed, successfully) or raises `KeyError` for the closing token. -/
theorem stepAxis_shape (image_id : Int) (cur : List String) (st : LoopState)
    (i : Nat) (sup : String) (c p : String) (f : Int) (l : Nat)
    (hc : cur.get? i = some c)
    (hp : st.prev_seq_category_names.get? i = some p)
    (hf : st.first_frame_ids.get? i = some f)
    (hl : st.seq_lengths.get? i = some l) :
    (∃ st₂, stepAxis image_id cur st (i, sup) = .ok st₂ ∧
      st₂.prev_seq_category_names = st.prev_seq_category_names.set i c ∧
      st₂.first_frame_ids.length = st.first_frame_ids.length ∧
      st₂.seq_lengths.length = st.seq_lengths.length ∧
      (c ≠ p → ∃ cid, get_sequence_catid sup (normalizeLabel p) = some cid)) ∨
    (stepAxis image_id cur st (i, sup)
      = .error (.keyError sup (normalizeLabel p))) := by
  by_cases hcp : c = p
  · refine Or.inl ⟨{ st with
      seq_lengths := st.seq_lengths.set i (l + 1),
      prev_seq_category_names := st.prev_seq_category_names.set i c },
      ?_, rfl, rfl, by simp, fun hne => absurd hcp hne⟩
    simp only [stepAxis_pair, hc, hp]
    rw [if_pos hcp]
    unfold bumpRun
    rw [hl]
  · cases hlk : get_sequence_catid sup (normalizeLabel p) with
    | none =>
      refine Or.inr ?_
      simp only [stepAxis_pair, hc, hp]
      rw [if_neg hcp]
      have hclosed : closeRun image_id st i sup p
          = .error (.keyError sup (normalizeLabel p)) := by
        unfold closeRun
        rw [hf, hl, hlk]
      simp only [hclosed]
    | some cid =>
      refine Or.inl ⟨{ st with
        sequences := st.sequences ++ [⟨st.sequences.length, f, l, cid⟩],
        prev_seq_category_names := st.prev_seq_category_names.set i c,
        first_frame_ids := st.first_frame_ids.set i image_id,
        seq_lengths := st.seq_lengths.set i 1 },
        ?_, rfl, by simp, by simp, fun _ => ⟨cid, rfl⟩⟩
      have hclosed : closeRun image_id st i sup p = .ok
          { st with
            sequences := st.sequences ++ [⟨st.sequences.length, f, l, cid⟩],
            first_frame_ids := st.first_frame_ids.set i image_id,
            seq_lengths := st.seq_lengths.set i 0 } := by
        unfold closeRun
        rw [hf, hl, hlk]
      have hbump : bumpRun c i
          { st with
            sequences := st.sequences ++ [⟨st.sequences.length, f, l, cid⟩],
            first_frame_ids := st.first_frame_ids.set i image_id,
            seq_lengths := st.seq_lengths.set i 0 } = .ok
          { st with
            sequences := st.sequences ++ [⟨st.sequences.length, f, l, cid⟩],
            prev_seq_category_names := st.prev_seq_category_names.set i c,
            first_frame_ids := st.first_frame_ids.set i image_id,
            seq_lengths := st.seq_lengths.set i 1 } := by
        unfold bumpRun
        rw [show (st.seq_lengths.set i 0).get? i = some 0 from
          getq_set_same _ _ _ (lt_of_getq_some hl)]
        simp [List.set_set]
      simp only [stepAxis_pair, hc, hp]
      rw [if_neg hcp]
      simp only [hclosed]
      exact hbump

/-- Shape-level classification of a whole image step: it succeeds and
preserves the shape invariant, or raises a `KeyError`. -/
theorem stepImage_shape (st : LoopState) (done : List Image) (image : Image)
    (hInv : InvShape st done)
    (hshape : (parseTokens image.file_name).length = 4) :
    (∃ st₂, stepImage st image = .ok st₂ ∧ InvShape st₂ (done ++ [image])) ∨
    (∃ s n, stepImage st image = .error (.keyError s n)) := by
  obtain ⟨⟨last, hlast, hprev⟩, hplen, hflen, hllen, hPends⟩ := hInv
  obtain ⟨p0, hp0⟩ := getq_some_of_lt
    (show 0 < st.prev_seq_category_names.length by omega)
  obtain ⟨p1, hp1⟩ := getq_some_of_lt
    (show 1 < st.prev_seq_category_names.length by omega)
  obtain ⟨p2, hp2⟩ := getq_some_of_lt
    (show 2 < st.prev_seq_category_names.length by omega)
  obtain ⟨p3, hp3⟩ := getq_some_of_lt
    (show 3 < st.prev_seq_category_names.length by omega)
  obtain ⟨c0, hc0⟩ := getq_some_of_lt
    (show 0 < (parseTokens image.file_name).length by omega)
  obtain ⟨c1, hc1⟩ := getq_some_of_lt
    (show 1 < (parseTokens image.file_name).length by omega)
  obtain ⟨c2, hc2⟩ := getq_some_of_lt
    (show 2 < (parseTokens image.file_name).length by omega)
  obtain ⟨c3, hc3⟩ := getq_some_of_lt
    (show 3 < (parseTokens image.file_name).length by omega)
  obtain ⟨f0, hf0⟩ := getq_some_of_lt
    (show 0 < st.first_frame_ids.length by omega)
  obtain ⟨l0, hl0⟩ := getq_some_of_lt
    (show 0 < st.seq_lengths.length by omega)
  rcases stepAxis_shape image.id (parseTokens image.file_name) st 0 "task"
      c0 p0 f0 l0 hc0 hp0 hf0 hl0 with
    ⟨st1, heq0, hpr0, hfl0, hll0, hcl0⟩ | herr0
  · have hpl1 : st1.prev_seq_category_names.length = 4 := by
      rw [hpr0]; simp [hplen]
    have hq1 : st1.prev_seq_category_names.get? 1 = some p1 := by
      rw [hpr0, getq_set_other _ _ _ _ (by omega)]; exact hp1
    obtain ⟨f1, hf1⟩ := getq_some_of_lt
      (show 1 < st1.first_frame_ids.length by rw [hfl0]; omega)
    obtain ⟨l1, hl1⟩ := getq_some_of_lt
      (show 1 < st1.seq_lengths.length by rw [hll0]; omega)
    rcases stepAxis_shape image.id (parseTokens image.file_name) st1 1 "activity"
        c1 p1 f1 l1 hc1 hq1 hf1 hl1 with
      ⟨st2, heq1, hpr1, hfl1, hll1, hcl1⟩ | herr1
    · have hpl2 : st2.prev_seq_category_names.length = 4 := by
        rw [hpr1]; simp [hpl1]
      have hq2 : st2.prev_seq_category_names.get? 2 = some p2 := by
        rw [hpr1, getq_set_other _ _ _ _ (by omega), hpr0,
          getq_set_other _ _ _ _ (by omega)]; exact hp2
      obtain ⟨f2, hf2⟩ := getq_some_of_lt
        (show 2 < st2.first_frame_ids.length by rw [hfl1, hfl0]; omega)
      obtain ⟨l2, hl2⟩ := getq_some_of_lt
        (show 2 < st2.seq_lengths.length by rw [hll1, hll0]; omega)
      rcases stepAxis_shape image.id (parseTokens image.file_name) st2 2 "acquisition"
          c2 p2 f2 l2 hc2 hq2 hf2 hl2 with
        ⟨st3, heq2, hpr2, hfl2, hll2, hcl2⟩ | herr2
      · have hpl3 : st3.prev_seq_category_names.length = 4 := by
          rw [hpr2]; simp [hpl2]
        have hq3 : st3.prev_seq_category_names.get? 3 = some p3 := by
          rw [hpr2, getq_set_other _ _ _ _ (by omega), hpr1,
            getq_set_other _ _ _ _ (by omega), hpr0,
            getq_set_other _ _ _ _ (by omega)]; exact hp3
        obtain ⟨f3, hf3⟩ := getq_some_of_lt
          (show 3 < st3.first_frame_ids.length by rw [hfl2, hfl1, hfl0]; omega)
        obtain ⟨l3, hl3⟩ := getq_some_of_lt
          (show 3 < st3.seq_lengths.length by rw [hll2, hll1, hll0]; omega)
        rcases stepAxis_shape image.id (parseTokens image.file_name) st3 3 "frame"
            c3 p3 f3 l3 hc3 hq3 hf3 hl3 with
          ⟨st4, heq3, hpr3, hfl3, hll3, hcl3⟩ | herr3
        · -- all four axis steps succeeded
          have hrun : stepImage st image = .ok st4 := by
            unfold stepImage
            rw [enumSupercats_eq]
            simp only [List.foldlM]
            rw [heq0, exbind_ok, heq1, exbind_ok, heq2, exbind_ok, heq3,
              exbind_ok, expure_eq]
          have hprev4 : st4.prev_seq_category_names
              = parseTokens image.file_name := by
            rw [hpr3, hpr2, hpr1, hpr0]
            exact set4_eq _ _ c0 c1 c2 c3 hplen hshape hc0 hc1 hc2 hc3
          have hg0 : st4.prev_seq_category_names.get? 0 = some c0 := by
            rw [hprev4]; exact hc0
          have hg1 : st4.prev_seq_category_names.get? 1 = some c1 := by
            rw [hprev4]; exact hc1
          have hg2 : st4.prev_seq_category_names.get? 2 = some c2 := by
            rw [hprev4]; exact hc2
          have hg3 : st4.prev_seq_category_names.get? 3 = some c3 := by
            rw [hprev4]; exact hc3
          refine Or.inl ⟨st4, hrun,
            ⟨image, List.getLast?_concat _, hprev4⟩,
            by rw [hprev4]; exact hshape,
            by rw [hfl3, hfl2, hfl1, hfl0]; exact hflen,
            by rw [hll3, hll2, hll1, hll0]; exact hllen, ?_⟩
          intro q hq
          have haxis : ∀ (i : Nat) (sup : String) (pi ci : String),
              (i, sup) ∈ enumSupercats →
              st.prev_seq_category_names.get? i = some pi →
              tokenAt i image = some ci →
              st4.prev_seq_category_names.get? i = some ci →
              (ci ≠ pi → ∃ cid,
                get_sequence_catid sup (normalizeLabel pi) = some cid) →
              AxisPending i sup st done →
              AxisPending i sup st4 (done ++ [image]) := by
            intro i sup pi ci hmemi hpi htoki hgi hcli hPend
            intro img hmem
            rcases List.mem_append.mp hmem with hin | hin
            · rcases hPend img hin with hs | ht
              · exact Or.inl hs
              · by_cases hck : ci = pi
                · refine Or.inr ?_
                  rw [ht, hpi, hgi, hck]
                · obtain ⟨cid, hcid⟩ := hcli hck
                  refine Or.inl ⟨pi, cid, ?_, hcid⟩
                  rw [ht, hpi]
            · simp only [List.mem_singleton] at hin
              subst hin
              refine Or.inr ?_
              rw [htoki, hgi]
          rw [enumSupercats_eq] at hq
          simp only [List.mem_cons, List.not_mem_nil, or_false] at hq
          rcases hq with rfl | rfl | rfl | rfl
          · exact haxis 0 "task" p0 c0 (by rw [enumSupercats_eq]; simp)
              hp0 hc0 hg0 hcl0 (hPends (0, "task") (by rw [enumSupercats_eq]; simp))
          · exact haxis 1 "activity" p1 c1 (by rw [enumSupercats_eq]; simp)
              hp1 hc1 hg1 hcl1 (hPends (1, "activity") (by rw [enumSupercats_eq]; simp))
          · exact haxis 2 "acquisition" p2 c2 (by rw [enumSupercats_eq]; simp)
              hp2 hc2 hg2 hcl2 (hPends (2, "acquisition") (by rw [enumSupercats_eq]; simp))
          · exact haxis 3 "frame" p3 c3 (by rw [enumSupercats_eq]; simp)
              hp3 hc3 hg3 hcl3 (hPends (3, "frame") (by rw [enumSupercats_eq]; simp))
        · refine Or.inr ⟨"frame", normalizeLabel p3, ?_⟩
          unfold stepImage
          rw [enumSupercats_eq]
          simp only [List.foldlM]
          rw [heq0, exbind_ok, heq1, exbind_ok, heq2, exbind_ok, herr3, exbind_err]
      · refine Or.inr ⟨"acquisition", normalizeLabel p2, ?_⟩
        unfold stepImage
        rw [enumSupercats_eq]
        simp only [List.foldlM]
        rw [heq0, exbind_ok, heq1, exbind_ok, herr2, exbind_err]
    · refine Or.inr ⟨"activity", normalizeLabel p1, ?_⟩
      unfold stepImage
      rw [enumSupercats_eq]
      simp only [List.foldlM]
      rw [heq0, exbind_ok, herr1, exbind_err]
  · refine Or.inr ⟨"task", normalizeLabel p0, ?_⟩
    unfold stepImage
    rw [enumSupercats_eq]
    simp only [List.foldlM]
    rw [herr0, exbind_err]

/-- The shape invariant holds after the first image is absorbed. -/
theorem InvShape_init (image : Image)
    (hlen : (parseTokens image.file_name).length = 4) :
    InvShape ⟨[], parseTokens image.file_name,
      [image.id, image.id, image.id, image.id], [1, 1, 1, 1]⟩ [image] := by
  refine ⟨⟨image, rfl, rfl⟩, hlen, rfl, rfl, ?_⟩
  intro q hq img hmem
  simp only [List.mem_singleton] at hmem
  subst hmem
  exact Or.inr rfl

/-- Shape-level classification of the whole image loop. -/
theorem foldImages_shape :
    ∀ (rest : List Image) (st : LoopState) (done : List Image),
      InvShape st done →
      (∀ img ∈ rest, (parseTokens img.file_name).length = 4) →
      (∃ st₂, rest.foldlM stepImage st = .ok st₂ ∧ InvShape st₂ (done ++ rest)) ∨
      (∃ s n, rest.foldlM stepImage st = .error (.keyError s n)) := by
  intro rest
  induction rest with
  | nil =>
    intro st done hInv hsh
    exact Or.inl ⟨st, rfl, by simpa using hInv⟩
  | cons image rest ih =>
    intro st done hInv hsh
    rcases stepImage_shape st done image hInv (hsh image (by simp)) with
      ⟨st₁, hstep, hInv₁⟩ | ⟨s, n, herr⟩
    · rcases ih st₁ (done ++ [image]) hInv₁
          (fun img hm => hsh img (by simp [hm])) with
        ⟨st₂, hfold, hInv₂⟩ | ⟨s, n, herr2⟩
      · refine Or.inl ⟨st₂, ?_, ?_⟩
        · simp only [List.foldlM]
          rw [hstep, exbind_ok, hfold]
        · rw [show done ++ image :: rest = (done ++ [image]) ++ rest by simp]
          exact hInv₂
      · refine Or.inr ⟨s, n, ?_⟩
        simp only [List.foldlM]
        rw [hstep, exbind_ok, herr2]
    · refine Or.inr ⟨s, n, ?_⟩
      simp only [List.foldlM]
      rw [herr, exbind_err]

/-- `flushAxis` with its pair argument split, for rewriting. -/
theorem flushAxis_pair (st : LoopState) (i : Nat) (sup : String) :
    flushAxis st (i, sup) =
      match st.prev_seq_category_names.get? i with
      | some p =>
        match st.first_frame_ids.get? i, st.seq_lengths.get? i with
        | some f, some l =>
          match get_sequence_catid sup (normalizeLabel p) with
          | some catid =>
            .ok { st with sequences := st.sequences ++ [⟨st.sequences.length, f, l, catid⟩] }
          | none => .error (.keyError sup (normalizeLabel p))
        | _, _ => .error .indexError
      | none => .error .indexError := rfl

/-- A successful flush of one axis appends that axis's open run as a record
and changes nothing else. -/
theorem flushAxis_transfer (st : LoopState) (i : Nat) (supercategory : String)
    (p : String) (f : Int) (l : Nat) (cid : Nat)
    (hp : st.prev_seq_category_names.get? i = some p)
    (hf : st.first_frame_ids.get? i = some f)
    (hl : st.seq_lengths.get? i = some l)
    (hlook : get_sequence_catid supercategory (normalizeLabel p) = some cid) :
    flushAxis st (i, supercategory) = .ok
      { st with sequences := st.sequences ++ [⟨st.sequences.length, f, l, cid⟩] } := by
  simp only [flushAxis_pair, hp, hf, hl, hlook]

/-- A flush whose closing token the registry does not know raises
`KeyError`. -/
theorem flushAxis_fail (st : LoopState) (i : Nat) (supercategory p : String)
    (f : Int) (l : Nat)
    (hp : st.prev_seq_category_names.get? i = some p)
    (hf : st.first_frame_ids.get? i = some f)
    (hl : st.seq_lengths.get? i = some l)
    (hlk : get_sequence_catid supercategory (normalizeLabel p) = none) :
    flushAxis st (i, supercategory)
      = .error (.keyError supercategory (normalizeLabel p)) := by
  simp only [flushAxis_pair, hp, hf, hl, hlk]

/-- Top-level classification: on a non-empty image list whose file names all
parse to four tokens, the scan either returns a sequence list — in which
case every image's every (normalized) axis token was looked up successfully
— or raises a `KeyError`; no other failure is possible. -/
theorem fix_classify (images : List Image) (hne : images ≠ [])
    (hshape : ∀ img ∈ images, (parseTokens img.file_name).length = 4) :
    (∃ seqs, fix_sequences_images images = .ok seqs ∧
      ∀ q ∈ enumSupercats, ∀ img ∈ images, lookupSucceeds q.1 q.2 img) ∨
    (∃ s n, fix_sequences_images images = .error (.keyError s n)) := by
  cases images with
  | nil => exact absurd rfl hne
  | cons image rest =>
    have hInv₀ := InvShape_init image (hshape image (by simp))
    rcases foldImages_shape rest _ [image] hInv₀
        (fun img hm => hshape img (by simp [hm])) with
      ⟨st₁, hfold, hInv₁⟩ | ⟨s, n, herr⟩
    · rw [List.singleton_append] at hInv₁
      obtain ⟨⟨last, hlast, hprev⟩, hplen, hflen, hllen, hPends⟩ := hInv₁
      obtain ⟨p0, hp0⟩ := getq_some_of_lt
        (show 0 < st₁.prev_seq_category_names.length by omega)
      obtain ⟨p1, hp1⟩ := getq_some_of_lt
        (show 1 < st₁.prev_seq_category_names.length by omega)
      obtain ⟨p2, hp2⟩ := getq_some_of_lt
        (show 2 < st₁.prev_seq_category_names.length by omega)
      obtain ⟨p3, hp3⟩ := getq_some_of_lt
        (show 3 < st₁.prev_seq_category_names.length by omega)
      obtain ⟨f0, hf0⟩ := getq_some_of_lt
        (show 0 < st₁.first_frame_ids.length by omega)
      obtain ⟨f1, hf1⟩ := getq_some_of_lt
        (show 1 < st₁.first_frame_ids.length by omega)
      obtain ⟨f2, hf2⟩ := getq_some_of_lt
        (show 2 < st₁.first_frame_ids.length by omega)
      obtain ⟨f3, hf3⟩ := getq_some_of_lt
        (show 3 < st₁.first_frame_ids.length by omega)
      obtain ⟨l0, hl0⟩ := getq_some_of_lt
        (show 0 < st₁.seq_lengths.length by omega)
      obtain ⟨l1, hl1⟩ := getq_some_of_lt
        (show 1 < st₁.seq_lengths.length by omega)
      obtain ⟨l2, hl2⟩ := getq_some_of_lt
        (show 2 < st₁.seq_lengths.length by omega)
      obtain ⟨l3, hl3⟩ := getq_some_of_lt
        (show 3 < st₁.seq_lengths.length by omega)
      cases hlk0 : get_sequence_catid "task" (normalizeLabel p0) with
      | none =>
        refine Or.inr ⟨"task", normalizeLabel p0, ?_⟩
        have hfail := flushAxis_fail st₁ 0 "task" p0 f0 l0 hp0 hf0 hl0 hlk0
        simp only [fix_sequences_images]
        simp only [hfold, exbind_ok]
        rw [enumSupercats_eq]
        simp only [List.foldlM]
        rw [hfail]
        simp only [exbind_err]
      | some cid0 =>
        have hflush0 := flushAxis_transfer st₁ 0 "task" p0 f0 l0 cid0
          hp0 hf0 hl0 hlk0
        set stA : LoopState := { st₁ with
          sequences := st₁.sequences ++ [⟨st₁.sequences.length, f0, l0, cid0⟩] }
          with hstA
        cases hlk1 : get_sequence_catid "activity" (normalizeLabel p1) with
        | none =>
          refine Or.inr ⟨"activity", normalizeLabel p1, ?_⟩
          have hfail := flushAxis_fail stA 1 "activity" p1 f1 l1 hp1 hf1 hl1 hlk1
          simp only [fix_sequences_images]
          simp only [hfold, exbind_ok]
          rw [enumSupercats_eq]
          simp only [List.foldlM]
          rw [hflush0, exbind_ok, hfail]
          simp only [exbind_err]
        | some cid1 =>
          have hflush1 := flushAxis_transfer stA 1 "activity" p1 f1 l1 cid1
            hp1 hf1 hl1 hlk1
          set stB : LoopState := { stA with
            sequences := stA.sequences ++ [⟨stA.sequences.length, f1, l1, cid1⟩] }
            with hstB
          cases hlk2 : get_sequence_catid "acquisition" (normalizeLabel p2) with
          | none =>
            refine Or.inr ⟨"acquisition", normalizeLabel p2, ?_⟩
            have hfail := flushAxis_fail stB 2 "acquisition" p2 f2 l2 hp2 hf2 hl2 hlk2
            simp only [fix_sequences_images]
            simp only [hfold, exbind_ok]
            rw [enumSupercats_eq]
            simp only [List.foldlM]
            rw [hflush0, exbind_ok, hflush1, exbind_ok, hfail]
            simp only [exbind_err]
          | some cid2 =>
            have hflush2 := flushAxis_transfer stB 2 "acquisition" p2 f2 l2 cid2
              hp2 hf2 hl2 hlk2
            set stC : LoopState := { stB with
              sequences := stB.sequences ++ [⟨stB.sequences.length, f2, l2, cid2⟩] }
              with hstC
            cases hlk3 : get_sequence_catid "frame" (normalizeLabel p3) with
            | none =>
              refine Or.inr ⟨"frame", normalizeLabel p3, ?_⟩
              have hfail := flushAxis_fail stC 3 "frame" p3 f3 l3 hp3 hf3 hl3 hlk3
              simp only [fix_sequences_images]
              simp only [hfold, exbind_ok]
              rw [enumSupercats_eq]
              simp only [List.foldlM]
              rw [hflush0, exbind_ok, hflush1, exbind_ok, hflush2, exbind_ok,
                hfail]
              simp only [exbind_err]
            | some cid3 =>
              have hflush3 := flushAxis_transfer stC 3 "frame" p3 f3 l3 cid3
                hp3 hf3 hl3 hlk3
              set stD : LoopState := { stC with
                sequences := stC.sequences ++ [⟨stC.sequences.length, f3, l3, cid3⟩] }
                with hstD
              have hrunflush : enumSupercats.foldlM flushAxis st₁ = .ok stD := by
                rw [enumSupercats_eq]
                simp only [List.foldlM]
                rw [hflush0, exbind_ok, hflush1, exbind_ok, hflush2, exbind_ok,
                  hflush3, exbind_ok, expure_eq]
              have hmain : fix_sequences_images (image :: rest)
                  = .ok stD.sequences := by
                simp only [fix_sequences_images]
                simp only [hfold, exbind_ok, hrunflush]
              refine Or.inl ⟨stD.sequences, hmain, ?_⟩
              intro q hq img hmem
              have hres : ∀ (i : Nat) (sup pi : String) (cid : Nat),
                  st₁.prev_seq_category_names.get? i = some pi →
                  get_sequence_catid sup (normalizeLabel pi) = some cid →
                  AxisPending i sup st₁ (image :: rest) →
                  lookupSucceeds i sup img := by
                intro i sup pi cid hpi hcid hPend
                rcases hPend img hmem with hs | ht
                · exact hs
                · exact ⟨pi, cid, by rw [ht, hpi], hcid⟩
              rw [enumSupercats_eq] at hq
              simp only [List.mem_cons, List.not_mem_nil, or_false] at hq
              rcases hq with rfl | rfl | rfl | rfl
              · exact hres 0 "task" p0 cid0 hp0 hlk0
                  (hPends (0, "task") (by rw [enumSupercats_eq]; simp))
              · exact hres 1 "activity" p1 cid1 hp1 hlk1
                  (hPends (1, "activity") (by rw [enumSupercats_eq]; simp))
              · exact hres 2 "acquisition" p2 cid2 hp2 hlk2
                  (hPends (2, "acquisition") (by rw [enumSupercats_eq]; simp))
              · exact hres 3 "frame" p3 cid3 hp3 hlk3
                  (hPends (3, "frame") (by rw [enumSupercats_eq]; simp))
    · refine Or.inr ⟨s, n, ?_⟩
      simp only [fix_sequences_images]
      simp only [herr, exbind_err]

/-- Claim C6: if every image parses to four tokens but some image carries,
on some axis, a token whose normalized form the registry does not know under
that axis, `fix_sequences` fails with a lookup error (`KeyError`) that
propagates to the caller: no sequence list is returned and no recovery
occurs. -/
theorem C6_lookup_error ( annotation : Annotation)
    (hshape : ∀ img ∈ annotation.images, (parseTokens img.file_name).length = 4)
    (hbad : ∃ img ∈ annotation.images, ∃ q ∈ enumSupercats, ∃ t,
      tokenAt q.1 img = some t ∧
      get_sequence_catid q.2 (normalizeLabel t) = none) :
    ∃ s n, fix_sequences annotation = .error (.keyError s n) := by
  obtain ⟨img, himg, q, hq, t, htok, hnone⟩ := hbad
  have hne : annotation.images ≠ [] := by
    intro h
    rw [h] at himg
    simp at himg
  rcases fix_classify annotation.images hne hshape with
    ⟨seqs, hok, hall⟩ | ⟨s, n, herr⟩
  · exfalso
    obtain ⟨t2, cid, htok2, hsucc⟩ := hall q hq img himg
    rw [Option.some.inj (htok2.symm.trans htok)] at hsucc
    exact absurd (hsucc.symm.trans hnone) (by simp)
  · refine ⟨s, n, ?_⟩
    unfold fix_sequences
    rw [herr]

/-- Witness for `C6_lookup_error`: the frame token `BAD` is unknown. -/
theorem C6_witness :
    ∃ s n, fix_sequences ⟨exBad, [], []⟩ = .error (.keyError s n) :=
  C6_lookup_error ⟨exBad, [], []⟩ (by decide)
    ⟨⟨1, "s1-position_wire-ap-BAD.png"⟩, by decide, (3, "frame"), by decide,
      "BAD", by decide, by decide⟩

/-- The invariant holds after the first image is absorbed. -/
theorem Inv_init (image : Image)
    (hlen : (parseTokens image.file_name).length = 4) :
    Inv ⟨[], parseTokens image.file_name,
      [image.id, image.id, image.id, image.id], [1, 1, 1, 1]⟩ [image] := by
  refine ⟨⟨image, rfl, rfl⟩, hlen, rfl, rfl, ?_, ?_⟩
  · intro r hr
    simp at hr
  · intro p hp
    rw [enumSupercats_eq] at hp
    simp only [List.mem_cons, List.not_mem_nil, or_false] at hp
    have hbase : ∀ i : Nat, i < 4 →
        AxisInv i p.2 ⟨[], parseTokens image.file_name,
          [image.id, image.id, image.id, image.id], [1, 1, 1, 1]⟩ [image] ∧
        AxisPending i p.2 ⟨[], parseTokens image.file_name,
          [image.id, image.id, image.id, image.id], [1, 1, 1, 1]⟩ [image] := by
      intro i hi
      constructor
      · refine ⟨image.id, 1, ?_, ?_, by omega, ?_, ?_⟩
        · interval_cases i <;> rfl
        · interval_cases i <;> rfl
        · simp [axisRecords, coversRuns]
        · simp [axisRecords, axisChanges]
      · intro img hmem
        simp only [List.mem_singleton] at hmem
        subst hmem
        exact Or.inr rfl
    rcases hp with rfl | rfl | rfl | rfl
    · exact hbase 0 (by omega)
    · exact hbase 1 (by omega)
    · exact hbase 2 (by omega)
    · exact hbase 3 (by omega)

/-- Folding the image loop over well-formed images preserves the invariant. -/
theorem foldImages_inv :
    ∀ (rest : List Image) (st : LoopState) (done : List Image),
      Inv st done → (∀ img ∈ done, imageOK img = true) →
      (∀ img ∈ rest, imageOK img = true) →
      ∃ st₂, rest.foldlM stepImage st = .ok st₂ ∧ Inv st₂ (done ++ rest) := by
  intro rest
  induction rest with
  | nil =>
    intro st done hInv hdone hrest
    exact ⟨st, rfl, by simpa using hInv⟩
  | cons image rest ih =>
    intro st done hInv hdone hrest
    obtain ⟨st₁, hstep, hInv₁⟩ := stepImage_inv st done image hInv hdone
      (hrest image (by simp))
    obtain ⟨st₂, hfold, hInv₂⟩ := ih st₁ (done ++ [image]) hInv₁
      (by
        intro img hmem
        rcases List.mem_append.mp hmem with hin | hin
        · exact hdone img hin
        · simp only [List.mem_singleton] at hin
          subst hin
          exact hrest img (by simp))
      (by
        intro img hmem
        exact hrest img (by simp [hmem]))
    refine ⟨st₂, ?_, ?_⟩
    · simp only [List.foldlM]
      rw [hstep, exbind_ok, hfold]
    · have : done ++ image :: rest = (done ++ [image]) ++ rest := by simp
      rw [this]
      exact hInv₂

/-- The master run lemma: on a non-empty, well-formed image list the scan
succeeds, every emitted record belongs to one of the four axes, and for each
axis the emitted records exactly cover the image list, one record per token
change plus the final flush. -/
theorem fix_master (images : List Image) (hne : images ≠ [])
    (hOK : ∀ img ∈ images, imageOK img = true) :
    ∃ seqs, fix_sequences_images images = .ok seqs ∧
      (∀ r ∈ seqs, ∃ p ∈ enumSupercats, catSup r.seq_category_id = some p.2) ∧
      (∀ p ∈ enumSupercats,
        coversRuns ((axisRecords p.2 seqs).map runKey) images = true ∧
        (axisRecords p.2 seqs).length = axisChanges p.1 images + 1) := by
  cases images with
  | nil => exact absurd rfl hne
  | cons image rest =>
    have hInv₀ := Inv_init image (imageOK_unpack image (hOK image (by simp))).1
    obtain ⟨st₁, hfold, hInv₁⟩ := foldImages_inv rest _ [image] hInv₀
      (by
        intro img hmem
        simp only [List.mem_singleton] at hmem
        subst hmem
        exact hOK img (by simp))
      (by
        intro img hmem
        exact hOK img (by simp [hmem]))
    rw [List.singleton_append] at hInv₁
    obtain ⟨⟨last, hlast, hprev⟩, hplen, hflen, hllen, hrecAx, hAxes⟩ := hInv₁
    have hlastOK := hOK last (List.mem_of_getLast?_eq_some hlast)
    obtain ⟨-, hlastLook⟩ := imageOK_unpack last hlastOK
    obtain ⟨p0, hp0⟩ := getq_some_of_lt
      (show 0 < st₁.prev_seq_category_names.length by omega)
    obtain ⟨p1, hp1⟩ := getq_some_of_lt
      (show 1 < st₁.prev_seq_category_names.length by omega)
    obtain ⟨p2, hp2⟩ := getq_some_of_lt
      (show 2 < st₁.prev_seq_category_names.length by omega)
    obtain ⟨p3, hp3⟩ := getq_some_of_lt
      (show 3 < st₁.prev_seq_category_names.length by omega)
    have hTokLast0 : tokenAt 0 last = some p0 := by
      unfold tokenAt; rw [← hprev]; exact hp0
    have hTokLast1 : tokenAt 1 last = some p1 := by
      unfold tokenAt; rw [← hprev]; exact hp1
    have hTokLast2 : tokenAt 2 last = some p2 := by
      unfold tokenAt; rw [← hprev]; exact hp2
    have hTokLast3 : tokenAt 3 last = some p3 := by
      unfold tokenAt; rw [← hprev]; exact hp3
    obtain ⟨t0, cid0, ht0, hlook0⟩ := hlastLook (0, "task")
      (by rw [enumSupercats_eq]; simp)
    obtain ⟨t1, cid1, ht1, hlook1⟩ := hlastLook (1, "activity")
      (by rw [enumSupercats_eq]; simp)
    obtain ⟨t2, cid2, ht2, hlook2⟩ := hlastLook (2, "acquisition")
      (by rw [enumSupercats_eq]; simp)
    obtain ⟨t3, cid3, ht3, hlook3⟩ := hlastLook (3, "frame")
      (by rw [enumSupercats_eq]; simp)
    rw [Option.some.inj (ht0.symm.trans hTokLast0)] at hlook0
    rw [Option.some.inj (ht1.symm.trans hTokLast1)] at hlook1
    rw [Option.some.inj (ht2.symm.trans hTokLast2)] at hlook2
    rw [Option.some.inj (ht3.symm.trans hTokLast3)] at hlook3
    have hcs0 := catSup_of_lookup "task" (normalizeLabel p0) cid0 hlook0
    have hcs1 := catSup_of_lookup "activity" (normalizeLabel p1) cid1 hlook1
    have hcs2 := catSup_of_lookup "acquisition" (normalizeLabel p2) cid2 hlook2
    have hcs3 := catSup_of_lookup "frame" (normalizeLabel p3) cid3 hlook3
    obtain ⟨hAx0, -⟩ := hAxes (0, "task") (by rw [enumSupercats_eq]; simp)
    obtain ⟨hAx1, -⟩ := hAxes (1, "activity") (by rw [enumSupercats_eq]; simp)
    obtain ⟨hAx2, -⟩ := hAxes (2, "acquisition") (by rw [enumSupercats_eq]; simp)
    obtain ⟨hAx3, -⟩ := hAxes (3, "frame") (by rw [enumSupercats_eq]; simp)
    obtain ⟨f0, l0, hf0, hl0, -, hcov0, hcnt0⟩ := hAx0
    obtain ⟨f1, l1, hf1, hl1, -, hcov1, hcnt1⟩ := hAx1
    obtain ⟨f2, l2, hf2, hl2, -, hcov2, hcnt2⟩ := hAx2
    obtain ⟨f3, l3, hf3, hl3, -, hcov3, hcnt3⟩ := hAx3
    -- the four flushes
    have hflush0 := flushAxis_transfer st₁ 0 "task" p0 f0 l0 cid0 hp0 hf0 hl0 hlook0
    set r0 : Seq := ⟨st₁.sequences.length, f0, l0, cid0⟩ with hr0
    set stA : LoopState := { st₁ with sequences := st₁.sequences ++ [r0] } with hstA
    have hflush1 := flushAxis_transfer stA 1 "activity" p1 f1 l1 cid1 hp1 hf1 hl1 hlook1
    set r1 : Seq := ⟨stA.sequences.length, f1, l1, cid1⟩ with hr1
    set stB : LoopState := { stA with sequences := stA.sequences ++ [r1] } with hstB
    have hflush2 := flushAxis_transfer stB 2 "acquisition" p2 f2 l2 cid2 hp2 hf2 hl2 hlook2
    set r2 : Seq := ⟨stB.sequences.length, f2, l2, cid2⟩ with hr2
    set stC : LoopState := { stB with sequences := stB.sequences ++ [r2] } with hstC
    have hflush3 := flushAxis_transfer stC 3 "frame" p3 f3 l3 cid3 hp3 hf3 hl3 hlook3
    set r3 : Seq := ⟨stC.sequences.length, f3, l3, cid3⟩ with hr3
    set stD : LoopState := { stC with sequences := stC.sequences ++ [r3] } with hstD
    have hrunflush : enumSupercats.foldlM flushAxis st₁ = .ok stD := by
      rw [enumSupercats_eq]
      simp only [List.foldlM]
      rw [hflush0, exbind_ok, hflush1, exbind_ok, hflush2, exbind_ok,
        hflush3, exbind_ok, expure_eq]
    have hmain : fix_sequences_images (image :: rest) = .ok stD.sequences := by
      simp only [fix_sequences_images]
      simp only [hfold, exbind_ok, hrunflush]
    -- the full record list and the per-axis slices
    have hseqD : stD.sequences = st₁.sequences ++ [r0] ++ [r1] ++ [r2] ++ [r3] := rfl
    have hax0 : axisRecords "task" stD.sequences
        = axisRecords "task" st₁.sequences ++ [r0] := by
      rw [hseqD,
        axisRecords_append_other "frame" "task" _ r3 hcs3 (by decide),
        axisRecords_append_other "acquisition" "task" _ r2 hcs2 (by decide),
        axisRecords_append_other "activity" "task" _ r1 hcs1 (by decide),
        axisRecords_append_own "task" _ r0 hcs0]
    have hax1 : axisRecords "activity" stD.sequences
        = axisRecords "activity" st₁.sequences ++ [r1] := by
      rw [hseqD,
        axisRecords_append_other "frame" "activity" _ r3 hcs3 (by decide),
        axisRecords_append_other "acquisition" "activity" _ r2 hcs2 (by decide),
        axisRecords_append_own "activity" _ r1 hcs1,
        axisRecords_append_other "task" "activity" _ r0 hcs0 (by decide)]
    have hax2 : axisRecords "acquisition" stD.sequences
        = axisRecords "acquisition" st₁.sequences ++ [r2] := by
      rw [hseqD,
        axisRecords_append_other "frame" "acquisition" _ r3 hcs3 (by decide),
        axisRecords_append_own "acquisition" _ r2 hcs2,
        axisRecords_append_other "activity" "acquisition" _ r1 hcs1 (by decide),
        axisRecords_append_other "task" "acquisition" _ r0 hcs0 (by decide)]
    have hax3 : axisRecords "frame" stD.sequences
        = axisRecords "frame" st₁.sequences ++ [r3] := by
      rw [hseqD,
        axisRecords_append_own "frame" _ r3 hcs3,
        axisRecords_append_other "acquisition" "frame" _ r2 hcs2 (by decide),
        axisRecords_append_other "activity" "frame" _ r1 hcs1 (by decide),
        axisRecords_append_other "task" "frame" _ r0 hcs0 (by decide)]
    refine ⟨stD.sequences, hmain, ?_, ?_⟩
    · intro r hr
      rw [hseqD] at hr
      simp only [List.append_assoc, List.mem_append, List.mem_singleton] at hr
      rcases hr with hin | rfl | rfl | rfl | rfl
      · exact hrecAx r hin
      · exact ⟨(0, "task"), by rw [enumSupercats_eq]; simp, hcs0⟩
      · exact ⟨(1, "activity"), by rw [enumSupercats_eq]; simp, hcs1⟩
      · exact ⟨(2, "acquisition"), by rw [enumSupercats_eq]; simp, hcs2⟩
      · exact ⟨(3, "frame"), by rw [enumSupercats_eq]; simp, hcs3⟩
    · intro q hq
      rw [enumSupercats_eq] at hq
      simp only [List.mem_cons, List.not_mem_nil, or_false] at hq
      rcases hq with rfl | rfl | rfl | rfl
      · constructor
        · rw [hax0, List.map_append]
          exact hcov0
        · rw [hax0]
          simp [hcnt0]
      · constructor
        · rw [hax1, List.map_append]
          exact hcov1
        · rw [hax1]
          simp [hcnt1]
      · constructor
        · rw [hax2, List.map_append]
          exact hcov2
        · rw [hax2]
          simp [hcnt2]
      · constructor
        · rw [hax3, List.map_append]
          exact hcov3
        · rw [hax3]
          simp [hcnt3]

/-- Every record belongs to exactly one axis, so the whole output is the
disjoint union of the four axis slices. -/
theorem length_eq_sum_axes (seqs : List Seq)
    (h : ∀ r ∈ seqs, ∃ p ∈ enumSupercats, catSup r.seq_category_id = some p.2) :
    seqs.length = (axisRecords "task" seqs).length
      + (axisRecords "activity" seqs).length
      + (axisRecords "acquisition" seqs).length
      + (axisRecords "frame" seqs).length := by
  induction seqs with
  | nil => simp [axisRecords]
  | cons r rs ih =>
    have hih := ih (fun x hx => h x (by simp [hx]))
    obtain ⟨p, hp, hcat⟩ := h r (by simp)
    rw [enumSupercats_eq] at hp
    simp only [List.mem_cons, List.not_mem_nil, or_false] at hp
    rcases hp with rfl | rfl | rfl | rfl <;>
      · simp only [axisRecords, List.filter_cons, hcat] at hih ⊢
        simp
        omega

/-- Claim C1: on a non-empty, well-formed image list, for each of the four
axes independently, the emitted sequence records of that axis partition the
ordered image list into contiguous, non-overlapping runs covering every
image exactly once and in order, each record's `first_frame_id` being the id
of the image opening its run, and the `seq_length`s of that axis summing to
the total number of images. -/
theorem C1_axis_partition (images : List Image) (hne : images ≠ [])
    (hOK : ∀ img ∈ images, imageOK img = true) :
    ∃ seqs, fix_sequences_images images = .ok seqs ∧
      ∀ p ∈ enumSupercats,
        coversRuns ((axisRecords p.2 seqs).map runKey) images = true ∧
        ((axisRecords p.2 seqs).map Seq.seq_length).sum = images.length := by
  obtain ⟨seqs, hmain, -, hax⟩ := fix_master images hne hOK
  refine ⟨seqs, hmain, ?_⟩
  intro p hp
  obtain ⟨hcov, -⟩ := hax p hp
  refine ⟨hcov, ?_⟩
  have hsum := coversRuns_sum _ images hcov
  rw [← hsum, List.map_map]
  rfl

/-- Witness for `C1_axis_partition` on the three-image worked example. -/
theorem C1_witness :
    ∃ seqs, fix_sequences_images exImages = .ok seqs ∧
      ∀ p ∈ enumSupercats,
        coversRuns ((axisRecords p.2 seqs).map runKey) exImages = true ∧
        ((axisRecords p.2 seqs).map Seq.seq_length).sum = exImages.length :=
  C1_axis_partition exImages (by decide) (by decide)

/-- Claim C2, amended: a sequence record is closed out per axis whose label
changed relative to the immediately preceding image (only the changed axes
close), plus a final flush of all four open runs after the last image; hence
each axis carries one record per change on that axis plus one, and the whole
output has (total changes over the four axes) + 4 records. -/
theorem C2_per_axis_close (images : List Image) (hne : images ≠ [])
    (hOK : ∀ img ∈ images, imageOK img = true) :
    ∃ seqs, fix_sequences_images images = .ok seqs ∧
      (∀ p ∈ enumSupercats,
        (axisRecords p.2 seqs).length = axisChanges p.1 images + 1) ∧
      seqs.length = axisChanges 0 images + axisChanges 1 images
        + axisChanges 2 images + axisChanges 3 images + 4 := by
  obtain ⟨seqs, hmain, hall, hax⟩ := fix_master images hne hOK
  refine ⟨seqs, hmain, fun p hp => (hax p hp).2, ?_⟩
  have hsum := length_eq_sum_axes seqs hall
  have h0 : (axisRecords "task" seqs).length = axisChanges 0 images + 1 :=
    (hax (0, "task") (by rw [enumSupercats_eq]; simp)).2
  have h1 : (axisRecords "activity" seqs).length = axisChanges 1 images + 1 :=
    (hax (1, "activity") (by rw [enumSupercats_eq]; simp)).2
  have h2 : (axisRecords "acquisition" seqs).length = axisChanges 2 images + 1 :=
    (hax (2, "acquisition") (by rw [enumSupercats_eq]; simp)).2
  have h3 : (axisRecords "frame" seqs).length = axisChanges 3 images + 1 :=
    (hax (3, "frame") (by rw [enumSupercats_eq]; simp)).2
  rw [hsum, h0, h1, h2, h3]
  omega

/-- Witness for `C2_per_axis_close` on the single-change pair. -/
theorem C2_witness :
    ∃ seqs, fix_sequences_images exChangePair = .ok seqs ∧
      (∀ p ∈ enumSupercats,
        (axisRecords p.2 seqs).length = axisChanges p.1 exChangePair + 1) ∧
      seqs.length = axisChanges 0 exChangePair + axisChanges 1 exChangePair
        + axisChanges 2 exChangePair + axisChanges 3 exChangePair + 4 :=
  C2_per_axis_close exChangePair (by decide) (by decide)

/-- Claim C10: on a non-empty image list in which every image's
before-the-first-dot name part splits into at least four dash tokens whose
last four, normalized, name registry entries of their respective axes,
`fix_sequences` raises nothing: every subscript and lookup is in bounds and
an annotation is returned. -/
theorem C10_no_exception ( annotation : Annotation)
    (hne : annotation.images ≠ [])
    (hOK : ∀ img ∈ annotation.images, imageOK img = true) :
    ∃ out, fix_sequences annotation = .ok out := by
  obtain ⟨seqs, hmain, -, -⟩ := fix_master annotation.images hne hOK
  refine ⟨{ annotation with sequences := seqs }, ?_⟩
  unfold fix_sequences
  rw [hmain]

/-- Witness for `C10_no_exception` on the worked example annotation. -/
theorem C10_witness : ∃ out, fix_sequences exAnnotation = .ok out :=
  C10_no_exception exAnnotation (by decide) (by decide)

/-- Claim C9: on an annotation with an empty `images` list the loop never
initializes `prev_seq_category_names`, so the unconditional final flush
subscripts `None` and raises `TypeError`; no annotation (in particular none
with an empty `sequences` list) is returned. -/
theorem C9_empty_flush ( annotation : Annotation) (h : annotation.images = []) :
    fix_sequences annotation = .error PyError.typeError := by
  have hc : fix_sequences_images annotation.images = .error PyError.typeError := by
    rw [h]
    rfl
  unfold fix_sequences
  rw [hc]

/-- Witness for `C9_empty_flush`. -/
theorem C9_witness : fix_sequences ⟨[], [], []⟩ = .error PyError.typeError :=
  C9_empty_flush ⟨[], [], []⟩ rfl

end Perphix
